import Mathlib

/-!
# Verification of the `claude-tutors` live conversational orchestrator

This development shallowly embeds the conversational orchestration core of
`src/server/live-ai-module.js` (class `LiveAIModule`) together with the parts of
its collaborators that the specified properties depend on
(`ElevenLabsTTS.interrupt`, the sentence-boundary streamer, the tool dispatch
table, the recurring "proactive check" loop).

Modelling conventions:

* A conversation message (`Msg`) is `{role, content}` where `content` is either
  a plain string or an ordered list of content blocks, exactly as in the
  JavaScript data model (`text`, `image`, `tool_use`, `tool_result` blocks).
* Pure passes (`sanitizeConversation`, `pruneOldImages`, the sentence splitter,
  `handleToolCall`) are translated directly as Lean functions.
* The event-driven orchestrator is embedded as an explicit state machine
  (`LiveSt`/`stepM`): JavaScript runs each socket/STT/stream callback to
  completion up to its next real `await` suspension point, so a machine step
  executes one handler segment atomically and the environment chooses the order
  in which suspended awaits resolve (`Ev.claudeDone`, `Ev.ttsAck`,
  `Ev.toolDone`, ...).  Wall-clock guards (the recurring check's idle
  threshold) are abstracted by letting the environment decide *when* a timer
  tick fires; all state-dependent guards are modelled faithfully.
* JavaScript string truthiness (`if (text)`, `text.trim()`) is modelled with
  explicit emptiness tests; the `\s` character class of the sentence-boundary
  regex is modelled by ASCII whitespace, which agrees with it on all inputs
  considered here.
-/

namespace ClaudeTutors

/-- Role of a conversation turn (`role: 'user' | 'assistant'`). -/
inductive Role where
  | user
  | assistant
deriving DecidableEq, Repr

/-- One content block of a turn, as in §3 of the spec and the JS objects:
`{type:'text',text}`, `{type:'image',source:{..data}}`,
`{type:'tool_use',name,input,id}`, `{type:'tool_result',tool_use_id,content}`.
The `input` of a tool use and the `content` of a tool result are opaque
serialized strings here. -/
inductive Block where
  | text (s : String)
  | image (data : String)
  | toolUse (name : String) (input : String) (id : String)
  | toolResult (toolUseId : String) (content : String)
deriving DecidableEq, Repr

/-- Message content: JS stores either a plain string or an array of blocks. -/
inductive Content where
  | str (s : String)
  | blocks (l : List Block)
deriving DecidableEq, Repr

/-- One turn of `currentConversation`. -/
structure Msg where
  role : Role
  content : Content
deriving DecidableEq, Repr

/-- `b.type === 'text'`. -/
def isText : Block → Bool
  | .text _ => true
  | _ => false

/-- `b.type === 'image'`. -/
def isImage : Block → Bool
  | .image _ => true
  | _ => false

/-- `b.type === 'tool_use'`. -/
def isToolUse : Block → Bool
  | .toolUse _ _ _ => true
  | _ => false

/-- `b.type === 'tool_result'`. -/
def isToolResult : Block → Bool
  | .toolResult _ _ => true
  | _ => false

/-- The `text` field of a text block (`''` otherwise; JS would read
`undefined`, which only ever feeds the truthiness test `b.text?.trim()`). -/
def textOf : Block → String
  | .text s => s
  | _ => ""

/-- `Array.isArray(msg.content) ? msg.content : []` — the block list of a
content value, with string content giving the empty array. -/
def blocksArr : Content → List Block
  | .str _ => []
  | .blocks l => l

/-- All texts carried by a content value: a plain string carries itself, a
block array carries the `text` fields of its text blocks.  (The Claude API
treats string content as a single text block.) -/
def contentTexts : Content → List String
  | .str s => [s]
  | .blocks l => (l.filter isText).map textOf

/-- Texts of a message, see `contentTexts`. -/
def msgTexts (m : Msg) : List String := contentTexts m.content

/-- `id`s of the `tool_use` blocks of a block list, in order. -/
def useIdsOfBlocks (l : List Block) : List String :=
  l.filterMap fun b =>
    match b with
    | .toolUse _ _ id => some id
    | _ => none

/-- `tool_use_id`s of the `tool_result` blocks of a block list, in order. -/
def resultIdsOfBlocks (l : List Block) : List String :=
  l.filterMap fun b =>
    match b with
    | .toolResult id _ => some id
    | _ => none

/-- `id`s of the `tool_use` blocks of a message, in order. -/
def toolUseIds (m : Msg) : List String :=
  useIdsOfBlocks (blocksArr m.content)

/-- `tool_use_id`s of the `tool_result` blocks of a message, in order. -/
def toolResultIds (m : Msg) : List String :=
  resultIdsOfBlocks (blocksArr m.content)

/-- The fixed interruption placeholder string of `live-ai-module.js`. -/
def interruptedPlaceholder : String := "[Response interrupted by user]"

/-- JS `String.prototype.trim()`: strip leading and trailing whitespace
(restricted to ASCII whitespace, which is all that occurs here).  Defined over
the character list so that it evaluates inside the kernel. -/
def strTrim (s : String) : String :=
  String.mk (((s.data.dropWhile Char.isWhitespace).reverse.dropWhile
    Char.isWhitespace).reverse)

/-!
## `sanitizeConversation` (src/server/live-ai-module.js lines 442-467)

The JS pass iterates the conversation from the end to the front.  It rewrites
only assistant messages, and its decision for index `i` reads `conv[i+1]` only
when that next message has role `user` — which the pass never rewrites — so the
backward in-place loop is equivalent to deciding each message from its
*original* successor.
-/

/-- The normalized content of an orphaned assistant turn (lines 458-464):
keep only the text blocks when at least one is non-blank (a single text block
collapses to plain string content), otherwise the fixed placeholder. -/
def normalizedContent (m : Msg) : Content :=
  let textBlocks := (blocksArr m.content).filter isText
  if textBlocks.length > 0 ∧ textBlocks.any (fun b => strTrim (textOf b) ≠ "") then
    match textBlocks with
    | [Block.text s] => Content.str s
    | l => Content.blocks l
  else Content.str interruptedPlaceholder

/-- Sanitization of one message given its (original) successor.  Mirrors the
body of the `for` loop of `sanitizeConversation`. -/
def sanitizeMsg (msg : Msg) (next : Option Msg) : Msg :=
  if msg.role ≠ Role.assistant then msg
  else
    if ¬ (blocksArr msg.content).any isToolUse then msg
    else
      -- `next && next.role === 'user' && nextBlocks.some(b => b.type === 'tool_result')`
      let validPair : Bool :=
        match next with
        | some n => n.role = Role.user && (blocksArr n.content).any isToolResult
        | none => false
      if validPair then msg
      else { msg with content := normalizedContent msg }

/-- `sanitizeConversation()`: fix orphaned `tool_use` blocks in the history. -/
def sanitizeConversation : List Msg → List Msg
  | [] => []
  | [m] => [sanitizeMsg m none]
  | m :: m' :: rest => sanitizeMsg m (some m') :: sanitizeConversation (m' :: rest)

/-!
## `pruneOldImages` (src/server/live-ai-module.js lines 318-342)
-/

/-- `MAX_CONTEXT_IMAGES` constant (line 10). -/
def MAX_CONTEXT_IMAGES : Nat := 10

/-- `Array.isArray(msg.content) && msg.content.some(b => b.type === 'image')`. -/
def isImageBearing (m : Msg) : Bool :=
  (blocksArr m.content).any isImage

/-- `imageIndices.length`: the number of image-bearing turns. -/
def imageBearingCount (l : List Msg) : Nat :=
  (l.filter isImageBearing).length

/-- The in-place strip of one image-bearing message (lines 332-338): keep the
non-image blocks; if exactly one block remains and it is a text block, collapse
the content to that plain string. -/
def stripImages (m : Msg) : Msg :=
  match m.content with
  | .str _ => m
  | .blocks l =>
    match l.filter (fun b => !isImage b) with
    | [Block.text s] => { m with content := Content.str s }
    | textBlocks => { m with content := Content.blocks textBlocks }

/-- Strip the first `n` image-bearing messages of the list. -/
def stripFirstImages : Nat → List Msg → List Msg
  | 0, l => l
  | _, [] => []
  | n + 1, m :: rest =>
    if isImageBearing m then stripImages m :: stripFirstImages n rest
    else m :: stripFirstImages (n + 1) rest

/-- `pruneOldImages()`: if more than `MAX_CONTEXT_IMAGES` messages carry image
blocks, strip images from the oldest ones so that the most recent
`MAX_CONTEXT_IMAGES` image-bearing messages keep theirs. -/
def pruneOldImages (conv : List Msg) : List Msg :=
  if imageBearingCount conv ≤ MAX_CONTEXT_IMAGES then conv
  else stripFirstImages (imageBearingCount conv - MAX_CONTEXT_IMAGES) conv

/-!
## Sentence-boundary streamer (`handleTextChunkForTTS`, lines 278-291, and the
end-of-generation flush, lines 208-212)
-/

/-- A sentence terminator of the regex `/[.!?]\s/`. -/
def isSentenceTerminator (c : Char) : Bool :=
  c = '.' || c = '!' || c = '?'

/-- The `\s` class of the dispatch regex, restricted to ASCII whitespace (the
JS class also matches exotic Unicode spaces, which never occur here). -/
def isJsWhitespace (c : Char) : Bool :=
  c = ' ' || c = '\t' || c = '\n' || c = '\r'

/-- First match of `/[.!?]\s/` in the buffer: returns the completed sentence
(everything up to and including the matched terminator and whitespace
character) and the retained remainder. -/
def splitFirstSentence : List Char → Option (List Char × List Char)
  | [] => none
  | [_] => none
  | c₁ :: c₂ :: rest =>
    if isSentenceTerminator c₁ && isJsWhitespace c₂ then some ([c₁, c₂], rest)
    else
      match splitFirstSentence (c₂ :: rest) with
      | some (sent, remaining) => some (c₁ :: sent, remaining)
      | none => none

/-- The `while ((match = sentenceEnd.exec(this.sentenceBuffer)))` loop: emit
completed sentences until the buffer holds no further match.  Each iteration
removes at least two characters from the buffer, so `fuel := buffer.length`
makes this total without changing its behaviour. -/
def drainSentences : Nat → List Char → List String × List Char
  | 0, buf => ([], buf)
  | fuel + 1, buf =>
    match splitFirstSentence buf with
    | none => ([], buf)
    | some (sent, rest) =>
      let (sents, final) := drainSentences fuel rest
      (String.mk sent :: sents, final)

/-- Streaming state: the sentence buffer plus the ordered list of text chunks
the speech synthesizer has received (`tts.sendTextChunk` calls). -/
structure TtsStream where
  sentenceBuffer : String
  sent : List String
deriving DecidableEq, Repr

/-- `handleTextChunkForTTS(chunk)`.  The handler contains no `await`, so the
`interrupted` flag is constant throughout one call and is passed as a value. -/
def handleTextChunkForTTS (interrupted : Bool) (st : TtsStream) (chunk : String) :
    TtsStream :=
  if interrupted then st
  else
    let buf := st.sentenceBuffer ++ chunk
    let (sents, rest) := drainSentences buf.length buf.data
    { sentenceBuffer := String.mk rest, sent := st.sent ++ sents }

/-- The end-of-generation flush (lines 209-212): if the remaining buffer is
non-blank, send it with an appended space and clear it. -/
def flushRemainder (st : TtsStream) : TtsStream :=
  if strTrim st.sentenceBuffer ≠ "" then
    { sentenceBuffer := "", sent := st.sent ++ [st.sentenceBuffer ++ " "] }
  else st

/-- Everything the synthesizer receives from one uninterrupted generation
cycle whose streamed text deltas are `chunks`: the per-delta sentence
dispatches followed by the final flush. -/
def streamCycleSends (chunks : List String) : List String :=
  (flushRemainder
    (chunks.foldl (handleTextChunkForTTS false) ⟨"", []⟩)).sent

/-!
## Tool dispatch (`handleToolCall`, lines 356-368)
-/

/-- Outcome value of a tool handler.  `errorResult m` is the error-shaped plain
object `{ error: m }` returned for unknown tools; `ok p` stands for the
JSON-serializable result object of a known handler (`handleCreateTutorial`
catches every exception and returns `{success:false,error}`, the other two
handlers are straight-line, so known handlers always return a value). -/
inductive ToolResultShape where
  | ok (payload : String)
  | errorResult (message : String)
deriving DecidableEq, Repr

/-- How one `handleToolCall` invocation ends: with a returned result object or
with a raised exception propagating to the caller. -/
inductive ToolOutcome where
  | returned (r : ToolResultShape)
  | raised
deriving DecidableEq, Repr

/-- `handleToolCall(name, args, id)`: the dispatch table
`{Create_Tutorial, Progressed_Step, Suggested_HotKey}` with the
`default:` branch returning `{ error: "Unknown tool: " + name }`. -/
def handleToolCall (handler : String → String → ToolResultShape)
    (name input : String) : ToolOutcome :=
  if name = "Create_Tutorial" then ToolOutcome.returned (handler name input)
  else if name = "Progressed_Step" then ToolOutcome.returned (handler name input)
  else if name = "Suggested_HotKey" then ToolOutcome.returned (handler name input)
  else ToolOutcome.returned (ToolResultShape.errorResult ("Unknown tool: " ++ name))

/-!
## Main-cycle tool phase (`sendToClaudeAndSpeak`, lines 226-259)
-/

/-- The `(name, input, id)` triple of one `tool_use` block, i.e. what
`handleToolCall(toolUse.name, toolUse.input, toolUse.id)` consumes. -/
structure ToolInvocation where
  name : String
  input : String
  id : String
deriving DecidableEq, Repr

/-- `response.content.filter(c => c.type === 'tool_use')`, projected onto the
fields the loop reads. -/
def toolInvocationsOf (content : List Block) : List ToolInvocation :=
  content.filterMap fun b =>
    match b with
    | .toolUse name input id => some ⟨name, input, id⟩
    | _ => none

/-- The `for (const toolUse of toolUseBlocks)` loop (lines 231-243).
`exec` is the tool executor (returning the serialized result that becomes the
`tool_result` content); `flagAt i` is the value of `this.interrupted` at its
`i`-th read, the check at the head of iteration `i` (the flag can change while
a tool execution is awaited, never inside the synchronous loop body).
Returns the executor invocations made, the accumulated `toolResults` blocks,
and whether the loop exited through `break`. -/
def mainToolLoop (exec : ToolInvocation → String) (flagAt : Nat → Bool) :
    List ToolInvocation → Nat → List ToolInvocation × List Block × Bool
  | [], _ => ([], [], false)
  | t :: rest, i =>
    if flagAt i then ([], [], true)
    else
      let r := exec t
      let (invs, results, broke) := mainToolLoop exec flagAt rest (i + 1)
      (t :: invs, Block.toolResult t.id r :: results, broke)

/-- The whole tool-processing phase of one main-cycle response (lines
226-259): run the loop over all `tool_use` blocks, then — only if the flag is
still clear at the post-loop check (line 245) — append one single user message
holding all `tool_result` blocks.  If the loop exited through `break`, the
post-loop check re-reads the flag with no intervening suspension, so it
necessarily still reads `true` and nothing is appended.
Returns the executor invocations and the messages appended to the history. -/
def mainToolPhase (exec : ToolInvocation → String) (flagAt : Nat → Bool)
    (content : List Block) : List ToolInvocation × List Msg :=
  let toolUses := toolInvocationsOf content
  if toolUses.isEmpty then ([], [])
  else
    let (invs, results, broke) := mainToolLoop exec flagAt toolUses 0
    if broke then (invs, [])
    else if flagAt toolUses.length then (invs, [])
    else (invs, [⟨Role.user, Content.blocks results⟩])

/-!
## Recurring proactive check (`startRecurringCheck`, lines 469-616)

The interval callback is modelled as a function of three oracles describing
the environment of one check run:

* `responses k` — the content of the `k`-th `claude.getResponse` answer
  (`k = 0` the initial call, `k ≥ 1` the follow-up calls after tool rounds);
* `exec` — the tool executor, as for the main cycle;
* `cancelAt k` — the value of `this.recurringCheckCancelled` at its `k`-th
  read.  The flag is set by `handleInterruption()` while the check is awaiting
  I/O, so consecutive reads may observe different values; the oracle captures
  each read individually and `observed` records them in execution order.
-/

/-- `MAX_TOOL_ROUNDS` (line 521). -/
def MAX_TOOL_ROUNDS : Nat := 3

/-- `'[NO_GUIDANCE_NEEDED]'` marker (line 490). -/
def NO_GUIDANCE : String := "[NO_GUIDANCE_NEEDED]"

/-- Whether `needle` occurs as a contiguous run somewhere in `haystack`. -/
def listHasRun (needle : List Char) : List Char → Bool
  | [] => needle.isPrefixOf []
  | c :: rest => needle.isPrefixOf (c :: rest) || listHasRun needle rest

/-- `text.includes(needle)`. -/
def containsSubstr (needle haystack : String) : Bool :=
  listHasRun needle.data haystack.data

/-- `currentResponse.content.find(c => c.type === 'text')?.text || ''`. -/
def firstTextOf (content : List Block) : String :=
  match content.find? isText with
  | some b => textOf b
  | none => ""

/-- Result of one recurring-check run:
`appended` — the messages pushed onto `currentConversation` (lines 596-598);
`provisional` — `messagesToCommit` at the moment the run ended;
`observed` — the successive values read from `recurringCheckCancelled`;
`sawNoGuidance` — whether a response text contained the no-guidance marker. -/
structure CheckRun where
  appended : List Msg
  provisional : List Msg
  observed : List Bool
  sawNoGuidance : Bool
deriving DecidableEq, Repr

/-- The final cancellation checkpoint and atomic commit (lines 589-598). -/
def checkFinalCommit (cancelAt : Nat → Bool) (k : Nat) (obs : List Bool)
    (committed : List Msg) : CheckRun :=
  let c := cancelAt k
  if c then ⟨[], committed, obs ++ [c], false⟩
  else ⟨committed, committed, obs ++ [c], false⟩

/-- The per-tool loop of the check (lines 555-568) with its per-tool
cancellation checkpoint (line 557).  Returns the next checkpoint index, the
observations, the accumulated `tool_result` blocks and whether a checkpoint
observed the cancellation flag. -/
def checkToolLoop (exec : ToolInvocation → String) (cancelAt : Nat → Bool) :
    List ToolInvocation → Nat → List Bool → Nat × List Bool × List Block × Bool
  | [], k, obs => (k, obs, [], false)
  | t :: rest, k, obs =>
    let c := cancelAt k
    if c then (k + 1, obs ++ [c], [], true)
    else
      let r := exec t
      let (k', obs', results, cancelled) :=
        checkToolLoop exec cancelAt rest (k + 1) (obs ++ [c])
      (k', obs', Block.toolResult t.id r :: results, cancelled)

/-- The body of one round of the `for (let round = 0; round <= MAX_TOOL_ROUNDS;
round++)` loop (lines 523-569): the round-start cancellation checkpoint (line
524), the no-guidance discard (line 532), the provisional assistant turn, the
TTS dispatch with its post-TTS checkpoint (lines 539-549, only for a non-empty
text — JS truthiness of `if (text)`), the `break` on no tool uses (line 552,
leading to the final checkpoint and commit), the tool loop, and the single
provisional tool-results turn (line 569).  Returns either the finished run
(`Sum.inl`) or the state in which the loop continues (`Sum.inr`). -/
def checkRoundTools (exec : ToolInvocation → String) (cancelAt : Nat → Bool)
    (toolUses : List ToolInvocation) (k : Nat) (obs : List Bool) (committed : List Msg) :
    CheckRun ⊕ Nat × List Bool × List Msg :=
  if toolUses.isEmpty then Sum.inl (checkFinalCommit cancelAt k obs committed)
  else
    let r := checkToolLoop exec cancelAt toolUses k obs
    if r.2.2.2 then Sum.inl ⟨[], committed, r.2.1, false⟩
    else Sum.inr (r.1, r.2.1, committed ++ [⟨Role.user, Content.blocks r.2.2.1⟩])

def checkRoundBody (responses : Nat → List Block) (exec : ToolInvocation → String)
    (cancelAt : Nat → Bool) (req k : Nat) (obs : List Bool) (committed : List Msg) :
    CheckRun ⊕ Nat × List Bool × List Msg :=
  let c := cancelAt k
  let obs := obs ++ [c]
  let k := k + 1
  if c then Sum.inl ⟨[], committed, obs, false⟩
  else
    let content := responses req
    let text := firstTextOf content
    let toolUses := toolInvocationsOf content
    if containsSubstr NO_GUIDANCE text then Sum.inl ⟨[], committed, obs, true⟩
    else
      let committed := committed ++ [⟨Role.assistant, Content.blocks content⟩]
      if text ≠ "" then
        -- TTS dispatch and the post-TTS checkpoint, lines 539-549
        let c' := cancelAt k
        if c' then Sum.inl ⟨[], committed, obs ++ [c'], false⟩
        else checkRoundTools exec cancelAt toolUses (k + 1) (obs ++ [c']) committed
      else checkRoundTools exec cancelAt toolUses k obs committed

/-- The round loop itself: run the body; when it continues, either stop at the
round cap (`if (round === MAX_TOOL_ROUNDS) break`, line 572, with
`remaining = MAX_TOOL_ROUNDS - round`), or pass the pre-follow-up checkpoint
(line 574) and process the follow-up response as the next round. -/
def checkRoundLoop (responses : Nat → List Block) (exec : ToolInvocation → String)
    (cancelAt : Nat → Bool) :
    Nat → Nat → Nat → List Bool → List Msg → CheckRun
  | remaining, req, k, obs, committed =>
    match checkRoundBody responses exec cancelAt req k obs committed with
    | Sum.inl r => r
    | Sum.inr (k', obs', committed') =>
      match remaining with
      | 0 => checkFinalCommit cancelAt k' obs' committed'
      | remaining' + 1 =>
        let c := cancelAt k'
        if c then ⟨[], committed', obs' ++ [c], false⟩
        else checkRoundLoop responses exec cancelAt remaining' (req + 1) (k' + 1)
          (obs' ++ [c]) committed'

/-- One whole recurring-check run, starting right after the initial
`claude.getResponse` resolves: the post-response checkpoint (line 513), then
`messagesToCommit = [{role:'user', content: userContent}]` and the round
loop. -/
def runRecurringCheck (responses : Nat → List Block) (exec : ToolInvocation → String)
    (cancelAt : Nat → Bool) (userContent : Content) : CheckRun :=
  let c := cancelAt 0
  if c then ⟨[], [], [c], false⟩
  else
    checkRoundLoop responses exec cancelAt MAX_TOOL_ROUNDS 0 1 [c]
      [⟨Role.user, userContent⟩]

/-- Specification bundle for one (partial) check run relative to the
observations `obs` made before it: the run only adds observations, a
cancellation observed at any of its checkpoints (or a no-guidance marker)
means nothing is appended, and otherwise everything provisional is appended
at once. -/
abbrev CheckRunSpec (obs : List Bool) (r : CheckRun) : Prop :=
  ∃ extra, r.observed = obs ++ extra ∧
    (true ∈ extra → r.appended = []) ∧
    (true ∉ extra → r.sawNoGuidance = true → r.appended = []) ∧
    (true ∉ extra → r.sawNoGuidance = false → r.appended = r.provisional)

/-!
## The orchestrator state machine

`LiveAIModule` is driven by socket/STT/stream callbacks on Node's single
event loop.  A callback — or the continuation of an `await` — runs atomically
up to the next *real* suspension point, so the machine below executes one such
segment per step and lets the environment pick the order in which suspended
awaits resolve.

Suspension points and how they resolve:

* the streaming `claude.getStreamingResponse` await (line 190) resolves with
  the final content (`Ev.claudeDone`) or rejects (`Ev.claudeFail`, also the
  outcome forced by `claude.abortStream()`);
* the non-streaming `claude.getResponse` awaits of the recurring check (lines
  505, 581) resolve the same way — note `abortStream()` does *not* cancel
  them, the check instead discards via its cancellation checkpoints;
* the group of TTS awaits between stream completion and the assistant push
  (lines 209-214), and the check's `tts.sendText` await (line 543): these
  suspend for real only while the TTS WebSocket is (re)connecting inside
  `_ensureConnected`; when the socket is already open they are pure microtask
  hops which no external event can interleave (delivering `Ev.ttsAck`
  immediately models that case).  While suspended they may resolve normally
  (`Ev.ttsAck`), reject (`Ev.ttsFail`), resolve late even after an
  interruption tore the socket down (`_waitForConnection` polls and gives up
  after 10 s, after which the send helpers return without sending), or — when
  the awaited promise is an orphaned `connect()` whose listeners
  `ElevenLabsTTS.interrupt()` removed — never settle at all.  The machine
  covers all of these by letting the environment deliver `ttsAck`/`ttsFail`
  at any time or withhold them forever;
* each `await this.handleToolCall(...)` (lines 237, 562) resolves with the
  handler result (`Ev.toolDone` carries the serialized result string).

Abstractions (none affects the stated properties):
* wall-clock quantities (`lastUserInputAt`, the idle threshold of line 481)
  only gate *when* the interval callback does anything; the environment
  chooses when `Ev.tick` fires and the remaining state guards are modelled
  exactly;
* text deltas and the sentence buffer (modelled separately above) touch
  neither the conversation nor the control flags and are omitted here, as are
  the purely informational socket emissions (`user_text`, `agent_text`,
  `session_started`, tool UI events);
* `toolType`/tutorial state only shape prompt strings: the screen label is a
  fixed session constant and the tutorial step line of the check prompt is
  supplied by the environment with each tick.
-/

/-- Control state of the session's single logical thread: which `await` (if
any) the active cycle or recurring check is suspended on. -/
inductive Ctl where
  | idle
  | mainAwaitClaude (isCont : Bool)
  | mainAwaitTTS (isCont : Bool) (content : List Block)
  | mainAwaitTool (current : ToolInvocation) (todo : List ToolInvocation) (done : List Block)
  | checkAwaitClaude (remaining : Nat) (committed : List Msg)
  | checkAwaitTTS (remaining : Nat) (committed : List Msg) (toolUses : List ToolInvocation)
  | checkAwaitTool (remaining : Nat) (committed : List Msg)
      (current : ToolInvocation) (todo : List ToolInvocation) (done : List Block)
deriving DecidableEq, Repr

/-- The mutable fields of `LiveAIModule` that the specified properties read. -/
structure LiveSt where
  conv : List Msg
  isProcessing : Bool
  interrupted : Bool
  hasPendingUserMessage : Bool
  isRecurringCheckRunning : Bool
  recurringCheckCancelled : Bool
  isAgentCurrentlySpeaking : Bool
  latestFrame : Option String
  screenLabel : String
  control : Ctl
deriving DecidableEq, Repr

/-- External events: inbound socket/STT events, timer ticks, and resolutions
of suspended awaits. -/
inductive Ev where
  | commitTranscript (text : String)
  | interimTranscript (text : String)
  | frame (data : String)
  | playbackEnded
  | claudeDone (content : List Block)
  | claudeFail
  | ttsAck
  | ttsFail
  | toolDone (result : String)
  | audioChunk (b : String)
  | tick (stepSuffix : String)
deriving DecidableEq, Repr

/-- Observable outputs of a step.  `request` is an outbound generation call
with the exact message list sent; `audio` is an `agent_audio` chunk forwarded
to the client; `interruptSignal` the `interrupt` socket event.
`cycleEntered`/`checkStarted` mark the synchronous entry segments of
`sendToClaudeAndSpeak` (which resets `this.interrupted`) and of the recurring
check body. -/
inductive Out where
  | request (messages : List Msg)
  | audio (b : String)
  | interruptSignal
  | cycleEntered (isCont : Bool)
  | checkStarted
deriving DecidableEq, Repr

/-- `buildUserContent(text)` (lines 303-316). -/
def buildUserContent (frame : Option String) (text : String) : Content :=
  match frame with
  | none => Content.str text
  | some f => Content.blocks [Block.image f, Block.text text]

/-- The `[RECURRING_SCREEN_CHECK]` marker opening every check prompt. -/
def checkMarker : String := "[RECURRING_SCREEN_CHECK]"

/-- The check prompt (lines 489-495): the fixed instruction around the
session's screen label, plus the tutorial-step line (empty when no tutorial is
active). -/
def checkPromptText (screenLabel stepSuffix : String) : String :=
  checkMarker ++ " Look at the user's current " ++ screenLabel ++
    ". If they seem stuck or could use a tip, provide brief guidance. If everything looks fine, respond with exactly: [NO_GUIDANCE_NEEDED]" ++
    stepSuffix

/-- The synchronous entry segment of `sendToClaudeAndSpeak` (lines 173-200):
re-entrancy guard, set `isProcessing`, clear `interrupted`, sanitize and prune
the history in place, and issue the streaming request. -/
def cycleEntry (isCont : Bool) (s : LiveSt) : LiveSt × List Out :=
  if s.isProcessing then (s, [])
  else
    let conv := pruneOldImages (sanitizeConversation s.conv)
    ({ s with isProcessing := true, interrupted := false, conv := conv,
              control := Ctl.mainAwaitClaude isCont },
     [Out.cycleEntered isCont, Out.request conv])

/-- The `finally` of `sendToClaudeAndSpeak` (lines 266-275): release
`isProcessing` and start the queued message's cycle if one is pending.  The
`finally` blocks of enclosing tool-round recursion frames re-run the same two
statements with no possible event in between, so they are no-ops and a single
application models the whole unwind. -/
def finishCycle (s : LiveSt) : LiveSt × List Out :=
  let s := { s with isProcessing := false, control := Ctl.idle }
  if s.hasPendingUserMessage then
    cycleEntry false { s with hasPendingUserMessage := false }
  else (s, [])

/-- `handleInterruption()` (lines 293-301): one synchronous action that sets
the flags, aborts the generator stream, tears down the synthesizer connection
(`tts.interrupt()`), emits `interrupt`, and clears the speaking flag. -/
def handleInterruption (s : LiveSt) : LiveSt × List Out :=
  ({ s with interrupted := true, recurringCheckCancelled := true,
            isAgentCurrentlySpeaking := false },
   [Out.interruptSignal])

/-- `onPartialTranscript(text)` (lines 128-138). -/
def onPartialTranscript (text : String) (s : LiveSt) : LiveSt × List Out :=
  if strTrim text = "" then (s, [])
  else if s.isAgentCurrentlySpeaking || s.isProcessing || s.isRecurringCheckRunning then
    handleInterruption s
  else (s, [])

/-- `onCommittedTranscript(text)` (lines 140-171): insert the assistant
placeholder when the history ends in a user turn, append the user turn, always
interrupt, then either queue the message (cycle active) or start its cycle. -/
def onCommittedTranscript (text : String) (s : LiveSt) : LiveSt × List Out :=
  if strTrim text = "" then (s, [])
  else
    let conv :=
      if (s.conv.getLast?).map Msg.role = some Role.user then
        s.conv ++ [⟨Role.assistant, Content.str interruptedPlaceholder⟩]
      else s.conv
    let conv := conv ++ [⟨Role.user, buildUserContent s.latestFrame text⟩]
    let (s', o) := handleInterruption { s with conv := conv }
    if s'.isProcessing then ({ s' with hasPendingUserMessage := true }, o)
    else
      let (s'', o') := cycleEntry false s'
      (s'', o ++ o')

/-- `onTTSAudioChunk(base64)` (lines 344-349): drop the chunk while the
interrupt flag is set, otherwise forward it and mark the agent speaking. -/
def onTTSAudioChunk (b : String) (s : LiveSt) : LiveSt × List Out :=
  if s.interrupted then (s, [])
  else ({ s with isAgentCurrentlySpeaking := true }, [Out.audio b])

/-- The recurring check's `finally` (lines 603-614). -/
def checkFinally (s : LiveSt) : LiveSt × List Out :=
  let s := { s with isRecurringCheckRunning := false, recurringCheckCancelled := false,
                    isProcessing := false, control := Ctl.idle }
  if s.hasPendingUserMessage then
    cycleEntry false { s with hasPendingUserMessage := false }
  else (s, [])

/-- The final cancellation checkpoint and atomic commit of the check (lines
589-598), followed by its `finally`. -/
def checkCommit (committed : List Msg) (s : LiveSt) : LiveSt × List Out :=
  if s.recurringCheckCancelled then checkFinally s
  else checkFinally { s with conv := s.conv ++ committed }

/-- Entry of the check's tool phase: `break` on no tools (line 552), else the
head checkpoint of the first tool iteration (line 557) and the first awaited
`handleToolCall`. -/
def checkToolsPhase (remaining : Nat) (committed : List Msg)
    (toolUses : List ToolInvocation) (s : LiveSt) : LiveSt × List Out :=
  match toolUses with
  | [] => checkCommit committed s
  | t :: rest =>
    if s.recurringCheckCancelled then checkFinally s
    else ({ s with control := Ctl.checkAwaitTool remaining committed t rest [] }, [])

/-- Resumption of a check `claude.getResponse` await (lines 512-554): the
post-response/round-start cancellation checkpoints, the no-guidance discard,
the provisional assistant turn, and — for a non-empty text — the awaited
`tts.sendText` dispatch. -/
def checkClaudeDone (remaining : Nat) (committed : List Msg) (content : List Block)
    (s : LiveSt) : LiveSt × List Out :=
  if s.recurringCheckCancelled then checkFinally s
  else
    let text := firstTextOf content
    let toolUses := toolInvocationsOf content
    if containsSubstr NO_GUIDANCE text then checkFinally s
    else
      let committed := committed ++ [⟨Role.assistant, Content.blocks content⟩]
      if text ≠ "" then
        ({ s with control := Ctl.checkAwaitTTS remaining committed toolUses }, [])
      else
        checkToolsPhase remaining committed toolUses s

/-- Resumption of the check's `tts.sendText` await: the post-TTS checkpoint
(line 545) then the tool phase. -/
def checkTtsDone (remaining : Nat) (committed : List Msg)
    (toolUses : List ToolInvocation) (s : LiveSt) : LiveSt × List Out :=
  if s.recurringCheckCancelled then checkFinally s
  else checkToolsPhase remaining committed toolUses s

/-- Resumption of one check `handleToolCall` await (lines 562-586): record the
result; on the last tool push the single results turn and either stop at the
round cap (line 572), discard at the pre-follow-up checkpoint (line 574), or
issue the follow-up request (lines 580-586). -/
def checkToolDone (remaining : Nat) (committed : List Msg) (current : ToolInvocation)
    (todo : List ToolInvocation) (done : List Block) (result : String) (s : LiveSt) :
    LiveSt × List Out :=
  let done := done ++ [Block.toolResult current.id result]
  match todo with
  | t :: rest =>
    if s.recurringCheckCancelled then checkFinally s
    else ({ s with control := Ctl.checkAwaitTool remaining committed t rest done }, [])
  | [] =>
    let committed := committed ++ [⟨Role.user, Content.blocks done⟩]
    match remaining with
    | 0 => checkCommit committed s
    | remaining' + 1 =>
      if s.recurringCheckCancelled then checkFinally s
      else
        ({ s with control := Ctl.checkAwaitClaude remaining' committed },
         [Out.request (s.conv ++ committed)])

/-- Resumption of the main streaming await (lines 190-214): discard a stale
response when interrupted (line 203), else move to the awaited TTS flush
group. -/
def mainClaudeDone (isCont : Bool) (content : List Block) (s : LiveSt) :
    LiveSt × List Out :=
  if s.interrupted then finishCycle s
  else ({ s with control := Ctl.mainAwaitTTS isCont content }, [])

/-- Resumption of the main TTS flush group (lines 216-243): push the assistant
turn unconditionally, then enter the tool loop (or unwind if there are no tool
uses). -/
def mainTtsDone (_isCont : Bool) (content : List Block) (s : LiveSt) :
    LiveSt × List Out :=
  let s := { s with conv := s.conv ++ [⟨Role.assistant, Content.blocks content⟩] }
  match toolInvocationsOf content with
  | [] => finishCycle s
  | t :: rest =>
    if s.interrupted then finishCycle s
    else ({ s with control := Ctl.mainAwaitTool t rest [] }, [])

/-- Resumption of one main `handleToolCall` await (lines 231-259): record the
result; at the loop end, the post-loop interrupt check (line 245) guards the
single tool-results turn and the continuation call (lines 247-255). -/
def mainToolDone (current : ToolInvocation) (todo : List ToolInvocation)
    (done : List Block) (result : String) (s : LiveSt) : LiveSt × List Out :=
  let done := done ++ [Block.toolResult current.id result]
  match todo with
  | t :: rest =>
    if s.interrupted then finishCycle s
    else ({ s with control := Ctl.mainAwaitTool t rest done }, [])
  | [] =>
    if s.interrupted then finishCycle s
    else
      cycleEntry true
        { s with conv := s.conv ++ [⟨Role.user, Content.blocks done⟩],
                 isProcessing := false }

/-- The interval callback of `startRecurringCheck` (lines 477-510): the state
guards (the idle-threshold clock guard is abstracted into when `tick` fires),
flag setup, prompt construction, in-place sanitize/prune, and the initial
`claude.getResponse` request on `conv ++ [check prompt turn]`. -/
def onTick (stepSuffix : String) (s : LiveSt) : LiveSt × List Out :=
  if s.isRecurringCheckRunning then (s, [])
  else if s.isAgentCurrentlySpeaking then (s, [])
  else if s.isProcessing then (s, [])
  else
    match s.latestFrame with
    | none => (s, [])
    | some f =>
      let prompt := checkPromptText s.screenLabel stepSuffix
      let userCheck : Msg := ⟨Role.user, Content.blocks [Block.image f, Block.text prompt]⟩
      let conv := pruneOldImages (sanitizeConversation s.conv)
      ({ s with isRecurringCheckRunning := true, recurringCheckCancelled := false,
                isProcessing := true, conv := conv,
                control := Ctl.checkAwaitClaude MAX_TOOL_ROUNDS [userCheck] },
       [Out.checkStarted, Out.request (conv ++ [userCheck])])

/-- One step of the orchestrator: dispatch an event to its handler segment.
Await resolutions arriving for a control state that is not suspended on them
resolve promises nobody awaits and do nothing. -/
def stepM (s : LiveSt) : Ev → LiveSt × List Out
  | Ev.commitTranscript text => onCommittedTranscript text s
  | Ev.interimTranscript text => onPartialTranscript text s
  | Ev.frame data => ({ s with latestFrame := some data }, [])
  | Ev.playbackEnded => ({ s with isAgentCurrentlySpeaking := false }, [])
  | Ev.audioChunk b => onTTSAudioChunk b s
  | Ev.tick stepSuffix => onTick stepSuffix s
  | Ev.claudeDone content =>
    match s.control with
    | Ctl.mainAwaitClaude isCont => mainClaudeDone isCont content s
    | Ctl.checkAwaitClaude remaining committed => checkClaudeDone remaining committed content s
    | _ => (s, [])
  | Ev.claudeFail =>
    match s.control with
    | Ctl.mainAwaitClaude _ => finishCycle s
    | Ctl.checkAwaitClaude _ _ => checkFinally s
    | _ => (s, [])
  | Ev.ttsAck =>
    match s.control with
    | Ctl.mainAwaitTTS isCont content => mainTtsDone isCont content s
    | Ctl.checkAwaitTTS remaining committed toolUses =>
      checkTtsDone remaining committed toolUses s
    | _ => (s, [])
  | Ev.ttsFail =>
    match s.control with
    | Ctl.mainAwaitTTS _ _ => finishCycle s
    | Ctl.checkAwaitTTS _ _ _ => checkFinally s
    | _ => (s, [])
  | Ev.toolDone r =>
    match s.control with
    | Ctl.mainAwaitTool t todo done => mainToolDone t todo done r s
    | Ctl.checkAwaitTool remaining committed t todo done =>
      checkToolDone remaining committed t todo done r s
    | _ => (s, [])

/-- Run the machine over an event list, accumulating outputs. -/
def runM : LiveSt → List Ev → LiveSt × List Out
  | s, [] => (s, [])
  | s, e :: rest =>
    let (s', out) := stepM s e
    let (s'', outs) := runM s' rest
    (s'', out ++ outs)

/-- The history just after `startSession` pushed `[SESSION_START]`
(lines 101-104). -/
def initConv : List Msg := [⟨Role.user, Content.str "[SESSION_START]"⟩]

/-- Session start (lines 68-110): the greeting turn is pushed and the first
cycle entered; the recurring-check interval is armed afterwards (tick guards
keep early ticks harmless). -/
def initState (screenLabel : String) : LiveSt × List Out :=
  cycleEntry false
    { conv := initConv, isProcessing := false, interrupted := false,
      hasPendingUserMessage := false, isRecurringCheckRunning := false,
      recurringCheckCancelled := false, isAgentCurrentlySpeaking := false,
      latestFrame := none, screenLabel := screenLabel, control := Ctl.idle }

/-- The outbound generation requests among a list of outputs. -/
def requestsOf (outs : List Out) : List (List Msg) :=
  outs.filterMap fun o =>
    match o with
    | Out.request ms => some ms
    | _ => none

/-- The `agent_audio` chunks among a list of outputs. -/
def audioOf (outs : List Out) : List String :=
  outs.filterMap fun o =>
    match o with
    | Out.audio b => some b
    | _ => none

/-- How often a fresh `sendToClaudeAndSpeak` body was entered in the outputs. -/
def cycleEntryCount (outs : List Out) : Nat :=
  (outs.filter fun o =>
    match o with
    | Out.cycleEntered _ => true
    | _ => false).length

/-!
## Turn-alternation invariants (spec §3.1)

`alternationOK` is invariant 1 of the spec exactly as claimed: roles strictly
alternate, and every user turn carrying `tool_result` blocks immediately
follows an assistant turn whose `tool_use` ids it matches in order.

`relaxedAlternationOK` is the invariant the code actually maintains: matched
tool results and no adjacent user/user pairs apart from a recurring-check
prompt turn following a user turn; adjacent assistant/assistant pairs (a stale
interrupted response committed by the unconditional push at line 220, followed
by the next cycle's response) are not excluded.
-/

/-- Whether `p` is a prefix of `s`. -/
def strStartsWith (p s : String) : Bool :=
  p.data.isPrefixOf s.data

/-- A user turn whose text opens with the recurring-check marker — the shape
of the proactive check's prompt turn. -/
def isCheckPromptMsg (m : Msg) : Bool :=
  m.role = Role.user && (msgTexts m).any fun t => strStartsWith checkMarker t

/-- A user turn carrying at least one `tool_result` block. -/
def isToolResultsMsg (m : Msg) : Bool :=
  m.role = Role.user && (blocksArr m.content).any isToolResult

/-- `b`'s tool results match `a`'s tool uses: `a` is an assistant turn and the
`tool_use_id`s of `b` equal the `tool_use` ids of `a`, in order. -/
def matchedToolPair (a b : Msg) : Bool :=
  a.role = Role.assistant && toolResultIds b = toolUseIds a

/-- An adjacent pair in the claimed invariant: roles differ, and a
tool-results turn matches its predecessor. -/
def strictPairOK (a b : Msg) : Bool :=
  a.role ≠ b.role && (!isToolResultsMsg b || matchedToolPair a b)

/-- An adjacent pair in the invariant the code maintains. -/
def relaxedPairOK (a b : Msg) : Bool :=
  (!(a.role = Role.user && b.role = Role.user) || isCheckPromptMsg b) &&
  (!isToolResultsMsg b || matchedToolPair a b)

/-- All adjacent pairs of the list satisfy `p`. -/
def chainPairs (p : Msg → Msg → Bool) : List Msg → Bool
  | a :: b :: rest => p a b && chainPairs p (b :: rest)
  | _ => true

/-- The first turn is not a tool-results turn (it would have no preceding
assistant turn to match). -/
def headNotResults : List Msg → Bool
  | [] => true
  | m :: _ => !isToolResultsMsg m

/-- Invariant 1 of the spec, as stated in the claim. -/
def alternationOK (conv : List Msg) : Bool :=
  headNotResults conv && chainPairs strictPairOK conv

/-- The relaxation of invariant 1 that the code actually maintains before
every outbound request. -/
def relaxedAlternationOK (conv : List Msg) : Bool :=
  headNotResults conv && chainPairs relaxedPairOK conv

/-- The role of the last turn, if any. -/
def lastRole (conv : List Msg) : Option Role :=
  (conv.getLast?).map Msg.role

/-- Common facts about the recurring check's provisional batch: appending it
to the history keeps the relaxed invariant, and it opens with the check's
prompt turn (so it may seamlessly follow even a user turn). -/
def checkBatchOK (conv committed : List Msg) : Prop :=
  relaxedAlternationOK (conv ++ committed) = true ∧
  ∀ h, committed.head? = some h →
    isCheckPromptMsg h = true ∧ isToolResultsMsg h = false

/-- Machine invariant carrying `relaxedAlternationOK` through every reachable
state.  The control-specific clauses record the shape facts each pending
resumption relies on: which assistant turn the running tool loop belongs to
and how its `tool_use` ids split into finished, current and still-pending
invocations, and — for the recurring check — that `conv ++ messagesToCommit`
already satisfies the invariant and how the provisional batch begins and
ends. -/
structure C1Inv (s : LiveSt) : Prop where
  convOK : relaxedAlternationOK s.conv = true
  ctlBusy : s.control ≠ Ctl.idle → s.isProcessing = true
  mainTool : ∀ current todo done, s.control = Ctl.mainAwaitTool current todo done →
    s.interrupted = false →
    ∃ front a, s.conv = front ++ [a] ∧ a.role = Role.assistant ∧
      toolUseIds a =
        resultIdsOfBlocks done ++ current.id :: todo.map ToolInvocation.id
  checkClaude : ∀ remaining committed, s.control = Ctl.checkAwaitClaude remaining committed →
    checkBatchOK s.conv committed ∧ lastRole committed = some Role.user
  checkTts : ∀ remaining committed toolUses,
    s.control = Ctl.checkAwaitTTS remaining committed toolUses →
    checkBatchOK s.conv committed ∧
    ∃ front a, committed = front ++ [a] ∧ a.role = Role.assistant ∧
      toolUseIds a = toolUses.map ToolInvocation.id
  checkTool : ∀ remaining committed current todo done,
    s.control = Ctl.checkAwaitTool remaining committed current todo done →
    checkBatchOK s.conv committed ∧
    ∃ front a, committed = front ++ [a] ∧ a.role = Role.assistant ∧
      toolUseIds a =
        resultIdsOfBlocks done ++ current.id :: todo.map ToolInvocation.id

/-- Blocks view of content: the Claude API treats plain string content as one
text block. -/
def blocksView : Content → List Block
  | .str s => [Block.text s]
  | .blocks l => l

/-- Every user turn of `conv` survives — same position, role `user`, same
texts — in `conv'`. -/
def preservesUserTurns (conv conv' : List Msg) : Prop :=
  ∀ (i : Nat) (m : Msg), conv[i]? = some m → m.role = Role.user →
    ∃ m', conv'[i]? = some m' ∧ m'.role = Role.user ∧ msgTexts m' = msgTexts m

/-!
## Concrete counterexample inputs
-/

/-- C5 counterexample input: an assistant turn using tool id `"id1"` followed
by a user turn whose only tool result answers a *different* id `"id2"`. -/
def c5cex : List Msg :=
  [⟨Role.assistant, Content.blocks [Block.toolUse "Create_Tutorial" "in1" "id1"]⟩,
   ⟨Role.user, Content.blocks [Block.toolResult "id2" "done"]⟩]

/-- Screen label of the C1 counterexample session. -/
def c1Label : String := "Blender screen"

/-- C1 counterexample events: greeting completes; the user commits an
utterance (starting a cycle); a partial transcript interrupts it mid-stream
(the stream aborts, no assistant turn is pushed, the history now ends in a
user turn); a frame arrives and the idle timer fires a recurring check, whose
outbound request appends the check-prompt user turn right after the user's
own turn. -/
def c1CexEvents : List Ev :=
  [Ev.claudeDone [Block.text "Hello!"], Ev.ttsAck,
   Ev.commitTranscript "make a chair", Ev.interimTranscript "uh",
   Ev.claudeFail, Ev.frame "FRAME", Ev.tick ""]

/-!
# Theorems
-/

/-- C9: for every tool name outside the dispatch table
`{Create_Tutorial, Progressed_Step, Suggested_HotKey}`, the dispatcher returns
the error-shaped result object `{ error: "Unknown tool: <name>" }` — an
ordinary return value naming the unknown tool, not a raised exception — so
the surrounding generation loop continues. -/
theorem C9_unknown_tool_error_result (handler : String → String → ToolResultShape)
    (name input : String)
    (h : name ∉ ["Create_Tutorial", "Progressed_Step", "Suggested_HotKey"]) :
    handleToolCall handler name input =
      ToolOutcome.returned (ToolResultShape.errorResult ("Unknown tool: " ++ name)) := by
  simp only [List.mem_cons, List.not_mem_nil, or_false, not_or] at h
  obtain ⟨h1, h2, h3⟩ := h
  simp [handleToolCall, h1, h2, h3]

/-- Witness for C9 at the concrete unknown tool name `"Paint_Picture"`. -/
theorem C9_unknown_tool_error_result_witness :
    handleToolCall (fun _ _ => ToolResultShape.ok "ignored") "Paint_Picture" "in1" =
      ToolOutcome.returned
        (ToolResultShape.errorResult ("Unknown tool: " ++ "Paint_Picture")) :=
  C9_unknown_tool_error_result (fun _ _ => ToolResultShape.ok "ignored")
    "Paint_Picture" "in1" (by decide)

/-- C7 counterexample: for the streamed deltas `"Hello there. How "` then
`"are you? Great."`, the third string handed to the synthesizer is
`"Great. "` — the end-of-generation flush sends `this.sentenceBuffer + ' '`
(line 210), appending a space — so the synthesizer does **not** receive
exactly `"Hello there. "`, `"How are you? "`, `"Great."` as claimed. -/
theorem C7_final_flush_cex :
    streamCycleSends ["Hello there. How ", "are you? Great."] ≠
      ["Hello there. ", "How are you? ", "Great."] := by
  decide

/-- C7 (amended): for the streamed deltas `"Hello there. How "` then
`"are you? Great."` in one uninterrupted cycle, the synthesizer receives
exactly `"Hello there. "`, then `"How are you? "`, then `"Great. "` (the
remainder plus the single space appended by the end-of-generation flush), in
that order. -/
theorem C7_sentence_dispatch :
    streamCycleSends ["Hello there. How ", "are you? Great."] =
      ["Hello there. ", "How are you? ", "Great. "] := by
  decide

/-- C2: a response containing exactly three `tool_use` blocks, processed with
no interruption, invokes the tool executor exactly three times — once per
block, in their order — and appends exactly one follow-up user turn holding
exactly three `tool_result` blocks whose `tool_use_id`s match the `tool_use`
blocks in the same order; the batch is never split across turns. -/
theorem C2_three_tool_uses_one_result_turn (exec : ToolInvocation → String)
    (flagAt : Nat → Bool) (content : List Block) (t1 t2 t3 : ToolInvocation)
    (huses : toolInvocationsOf content = [t1, t2, t3])
    (hflag : ∀ i, i ≤ 3 → flagAt i = false) :
    mainToolPhase exec flagAt content =
      ([t1, t2, t3],
       [⟨Role.user, Content.blocks
          [Block.toolResult t1.id (exec t1), Block.toolResult t2.id (exec t2),
           Block.toolResult t3.id (exec t3)]⟩]) := by
  simp [mainToolPhase, huses, mainToolLoop, List.isEmpty,
    hflag 0 (by omega), hflag 1 (by omega), hflag 2 (by omega), hflag 3 (by omega)]

/-- Witness for C2: a concrete response with three tool uses and a constantly
clear interrupt flag. -/
theorem C2_three_tool_uses_one_result_turn_witness :
    mainToolPhase (fun t => t.name ++ "-res") (fun _ => false)
      [Block.text "calling tools",
       Block.toolUse "Create_Tutorial" "a1" "id1",
       Block.toolUse "Progressed_Step" "a2" "id2",
       Block.toolUse "Suggested_HotKey" "a3" "id3"] =
      ([⟨"Create_Tutorial", "a1", "id1"⟩, ⟨"Progressed_Step", "a2", "id2"⟩,
        ⟨"Suggested_HotKey", "a3", "id3"⟩],
       [⟨Role.user, Content.blocks
          [Block.toolResult "id1" ("Create_Tutorial" ++ "-res"),
           Block.toolResult "id2" ("Progressed_Step" ++ "-res"),
           Block.toolResult "id3" ("Suggested_HotKey" ++ "-res")]⟩]) :=
  C2_three_tool_uses_one_result_turn (fun t => t.name ++ "-res") (fun _ => false)
    _ _ _ _ (by decide) (fun _ _ => rfl)

lemma imageBearingCount_cons (m : Msg) (l : List Msg) :
    imageBearingCount (m :: l) =
      (if isImageBearing m then 1 else 0) + imageBearingCount l := by
  by_cases h : isImageBearing m
  · simp [imageBearingCount, List.filter_cons, h, Nat.add_comm]
  · simp [imageBearingCount, List.filter_cons, h]

lemma stripImages_role (m : Msg) : (stripImages m).role = m.role := by
  rcases m with ⟨r, c⟩
  cases c with
  | str s => rfl
  | blocks l =>
    simp only [stripImages]
    split <;> rfl

lemma stripImages_blocksView (m : Msg) (h : isImageBearing m = true) :
    blocksView (stripImages m).content =
      (blocksView m.content).filter (fun b => !isImage b) := by
  rcases m with ⟨r, c⟩
  cases c with
  | str s => simp [isImageBearing, blocksArr] at h
  | blocks l =>
    simp only [stripImages]
    split
    · next s heq => simp only [blocksView]; rw [heq]
    · next => simp only [blocksView]

lemma stripFirstImages_length (n : Nat) (l : List Msg) :
    (stripFirstImages n l).length = l.length := by
  induction l generalizing n with
  | nil => cases n <;> rfl
  | cons m rest ih =>
    cases n with
    | zero => rfl
    | succ n' =>
      by_cases h : isImageBearing m <;> simp [stripFirstImages, h, ih]

lemma stripFirstImages_getElem? (n : Nat) (l : List Msg) (i : Nat) :
    (stripFirstImages n l)[i]? = (l[i]?).map fun m =>
      if isImageBearing m = true ∧ imageBearingCount (l.take i) < n
      then stripImages m else m := by
  induction l generalizing n i with
  | nil => cases n <;> simp [stripFirstImages]
  | cons m rest ih =>
    cases n with
    | zero =>
      have hc : ∀ (x : Msg) (t : List Msg),
          (if isImageBearing x = true ∧ imageBearingCount t < 0
           then stripImages x else x) = x := by
        intro x t
        rw [if_neg]
        rintro ⟨-, h⟩
        omega
      cases h : (m :: rest)[i]? <;> simp [stripFirstImages, h, hc]
    | succ n' =>
      by_cases hm : isImageBearing m
      · cases i with
        | zero => simp [stripFirstImages, hm, imageBearingCount]
        | succ j =>
          have hcnt : imageBearingCount (m :: rest.take j) =
              1 + imageBearingCount (rest.take j) := by
            simp [imageBearingCount_cons, hm]
          have hcong : ∀ x : Msg,
              (if isImageBearing x = true ∧ imageBearingCount (rest.take j) < n'
               then stripImages x else x) =
              (if isImageBearing x = true ∧
                  imageBearingCount (m :: rest.take j) < n' + 1
               then stripImages x else x) := by
            intro x
            rw [hcnt]
            by_cases hx : isImageBearing x = true ∧ imageBearingCount (rest.take j) < n'
            · rw [if_pos hx, if_pos ⟨hx.1, by omega⟩]
            · rw [if_neg hx, if_neg]
              rintro ⟨h1, h2⟩
              exact hx ⟨h1, by omega⟩
          have hstep : (stripFirstImages (n' + 1) (m :: rest))[j + 1]? =
              (stripFirstImages n' rest)[j]? := by
            simp [stripFirstImages, hm]
          rw [hstep, ih]
          cases h : rest[j]? <;> simp [h, hcong]
      · cases i with
        | zero => simp [stripFirstImages, hm]
        | succ j =>
          have hcnt : imageBearingCount (m :: rest.take j) =
              imageBearingCount (rest.take j) := by
            simp [imageBearingCount_cons, hm]
          have hstep : (stripFirstImages (n' + 1) (m :: rest))[j + 1]? =
              (stripFirstImages (n' + 1) rest)[j]? := by
            simp [stripFirstImages, hm]
          rw [hstep, ih]
          cases h : rest[j]? <;> simp [h, hcnt]

/-- C8 (amended statement check below; the claim as stated holds): pruning
leaves a history with at most `MAX_CONTEXT_IMAGES` image-bearing turns
unchanged; otherwise it keeps every turn at its position (same length, same
role), strips the image blocks from exactly the oldest
`count - MAX_CONTEXT_IMAGES` image-bearing turns — those image-bearing turns
preceded by fewer than `count - MAX_CONTEXT_IMAGES` image-bearing turns —
preserving all their non-image blocks in order, and leaves every other turn
untouched. -/
theorem C8_prune_oldest_images_only (conv : List Msg) :
    (imageBearingCount conv ≤ MAX_CONTEXT_IMAGES → pruneOldImages conv = conv) ∧
    (pruneOldImages conv).length = conv.length ∧
    ∀ i m, conv[i]? = some m →
      (¬ (isImageBearing m = true ∧
          imageBearingCount (conv.take i) <
            imageBearingCount conv - MAX_CONTEXT_IMAGES) →
        (pruneOldImages conv)[i]? = some m) ∧
      ((isImageBearing m = true ∧
        imageBearingCount (conv.take i) <
          imageBearingCount conv - MAX_CONTEXT_IMAGES) →
        ∃ m', (pruneOldImages conv)[i]? = some m' ∧ m'.role = m.role ∧
          blocksView m'.content =
            (blocksView m.content).filter (fun b => !isImage b)) := by
  refine ⟨fun h => by simp [pruneOldImages, h], ?_, ?_⟩
  · by_cases h : imageBearingCount conv ≤ MAX_CONTEXT_IMAGES
    · simp [pruneOldImages, h]
    · simp [pruneOldImages, h, stripFirstImages_length]
  · intro i m hm
    constructor
    · intro hno
      by_cases h : imageBearingCount conv ≤ MAX_CONTEXT_IMAGES
      · simpa [pruneOldImages, h] using hm
      · simp only [pruneOldImages, h, if_neg, ite_false]
        rw [stripFirstImages_getElem?, hm]
        simp [if_neg hno]
    · rintro ⟨h1, h2⟩
      have h : ¬ imageBearingCount conv ≤ MAX_CONTEXT_IMAGES := by omega
      refine ⟨stripImages m, ?_, stripImages_role m, stripImages_blocksView m h1⟩
      simp only [pruneOldImages, h, ite_false]
      rw [stripFirstImages_getElem?, hm]
      simp [if_pos (And.intro h1 h2)]

/-- Witness for C8: a history of 11 image-bearing turns has exactly its oldest
turn stripped (images removed, text kept, position and role preserved), and a
small history is left unchanged. -/
theorem C8_prune_oldest_images_only_witness :
    (∃ m', (pruneOldImages (List.replicate 11
        (⟨Role.user, Content.blocks [Block.image "D", Block.text "t"]⟩ : Msg)))[0]? =
        some m' ∧
      m'.role = (⟨Role.user, Content.blocks [Block.image "D", Block.text "t"]⟩ : Msg).role ∧
      blocksView m'.content =
        (blocksView (Content.blocks [Block.image "D", Block.text "t"])).filter
          (fun b => !isImage b)) ∧
    pruneOldImages c5cex = c5cex :=
  ⟨((C8_prune_oldest_images_only (List.replicate 11
        ⟨Role.user, Content.blocks [Block.image "D", Block.text "t"]⟩)).2.2 0
      ⟨Role.user, Content.blocks [Block.image "D", Block.text "t"]⟩
      (by decide)).2 (by decide),
   (C8_prune_oldest_images_only c5cex).1 (by decide)⟩

lemma sanitizeConversation_getElem? (conv : List Msg) (i : Nat) :
    (sanitizeConversation conv)[i]? =
      (conv[i]?).map fun m => sanitizeMsg m conv[i + 1]? := by
  induction conv generalizing i with
  | nil => simp [sanitizeConversation]
  | cons m rest ih =>
    cases rest with
    | nil =>
      cases i with
      | zero => simp [sanitizeConversation]
      | succ j => simp [sanitizeConversation]
    | cons m' rest' =>
      cases i with
      | zero => simp [sanitizeConversation]
      | succ j =>
        have : (sanitizeConversation (m :: m' :: rest'))[j + 1]? =
            (sanitizeConversation (m' :: rest'))[j]? := by
          simp [sanitizeConversation]
        rw [this, ih]
        simp

/-- C5 counterexample: the assistant turn uses tool id `"id1"`, the following
user turn answers only id `"id2"` — no *matching* tool result exists — yet
`sanitizeConversation` leaves the conversation unchanged, `tool_use` block
included: the code only tests for the *presence* of some `tool_result` block
in the next user turn (line 455), never comparing ids, so the claim's
"matching" qualification fails. -/
theorem C5_id_matching_not_checked_cex :
    sanitizeConversation c5cex = c5cex ∧
    c5cex.map toolUseIds = [["id1"], []] ∧
    c5cex.map toolResultIds = [[], ["id2"]] := by
  decide

/-- C5 (amended): the sanitization pass normalizes exactly the assistant turns
holding `tool_use` blocks whose immediately following turn is not a user turn
carrying at least one `tool_result` block (ids are not compared): their
content is replaced by the turn's own text blocks when a non-blank one is
present, otherwise by the fixed placeholder (`normalizedContent`); assistant
turns whose next turn is a user turn with some `tool_result` block, and all
other turns, are left unchanged. -/
theorem C5_sanitize_normalizes_orphans (conv : List Msg) (i : Nat) (m : Msg)
    (hm : conv[i]? = some m) :
    ((m.role = Role.user ∨ (blocksArr m.content).any isToolUse = false) →
      (sanitizeConversation conv)[i]? = some m) ∧
    (m.role = Role.assistant → (blocksArr m.content).any isToolUse = true →
      (∃ n, conv[i + 1]? = some n ∧ n.role = Role.user ∧
        (blocksArr n.content).any isToolResult = true) →
      (sanitizeConversation conv)[i]? = some m) ∧
    (m.role = Role.assistant → (blocksArr m.content).any isToolUse = true →
      (¬ ∃ n, conv[i + 1]? = some n ∧ n.role = Role.user ∧
        (blocksArr n.content).any isToolResult = true) →
      (sanitizeConversation conv)[i]? =
        some { m with content := normalizedContent m }) := by
  rw [sanitizeConversation_getElem?, hm, Option.map_some']
  refine ⟨?_, ?_, ?_⟩
  · rintro (hu | hnt)
    · have : m.role ≠ Role.assistant := by rw [hu]; intro h; cases h
      simp [sanitizeMsg, this]
    · by_cases hr : m.role = Role.assistant
      · simp [sanitizeMsg, hr, hnt]
      · simp [sanitizeMsg, hr]
  · rintro hr ht ⟨n, hn, hnu, hnr⟩
    simp [sanitizeMsg, hr, ht, hn, hnu, hnr]
  · intro hr ht hno
    have hvp : (match conv[i + 1]? with
        | some n => n.role = Role.user && (blocksArr n.content).any isToolResult
        | none => false) = false := by
      cases hn : conv[i + 1]? with
      | none => rfl
      | some n =>
        by_cases hnu : n.role = Role.user
        · by_cases hnr : (blocksArr n.content).any isToolResult = true
          · exact absurd ⟨n, hn, hnu, hnr⟩ hno
          · simp [hnu, hnr]
        · simp [hnu]
    simp only [sanitizeMsg, hr, ht]
    simp [hvp]

/-- Witness for C5: the mismatched pair of `c5cex` is left unchanged, and a
lone orphaned assistant turn is normalized to the placeholder content. -/
theorem C5_sanitize_normalizes_orphans_witness :
    (sanitizeConversation c5cex)[0]? =
      some ⟨Role.assistant, Content.blocks [Block.toolUse "Create_Tutorial" "in1" "id1"]⟩ ∧
    (sanitizeConversation [⟨Role.assistant, Content.blocks [Block.toolUse "A" "i" "x"]⟩])[0]? =
      some ⟨Role.assistant,
        normalizedContent ⟨Role.assistant, Content.blocks [Block.toolUse "A" "i" "x"]⟩⟩ :=
  ⟨(C5_sanitize_normalizes_orphans c5cex 0 _ (by decide)).2.1 (by decide) (by decide)
      ⟨⟨Role.user, Content.blocks [Block.toolResult "id2" "done"]⟩,
        by decide, by decide, by decide⟩,
   (C5_sanitize_normalizes_orphans
      [⟨Role.assistant, Content.blocks [Block.toolUse "A" "i" "x"]⟩] 0
      ⟨Role.assistant, Content.blocks [Block.toolUse "A" "i" "x"]⟩
      (by decide)).2.2 (by decide) (by decide)
      (by rintro ⟨n, hn, -, -⟩; simp at hn)⟩

lemma checkToolLoop_obs (exec : ToolInvocation → String) (cancelAt : Nat → Bool) :
    ∀ (tools : List ToolInvocation) (k : Nat) (obs : List Bool),
      ∃ extra, (checkToolLoop exec cancelAt tools k obs).2.1 = obs ++ extra ∧
        ((checkToolLoop exec cancelAt tools k obs).2.2.2 = true ↔ true ∈ extra) := by
  intro tools
  induction tools with
  | nil =>
    intro k obs
    exact ⟨[], by simp [checkToolLoop], by simp [checkToolLoop]⟩
  | cons t rest ih =>
    intro k obs
    by_cases hc : cancelAt k = true
    · refine ⟨[true], ?_, ?_⟩ <;> simp [checkToolLoop, hc]
    · rw [Bool.not_eq_true] at hc
      obtain ⟨extra, h1, h2⟩ := ih (k + 1) (obs ++ [false])
      rcases hrec : checkToolLoop exec cancelAt rest (k + 1) (obs ++ [false])
        with ⟨k', obs', results, cancelled⟩
      rw [hrec] at h1 h2
      refine ⟨false :: extra, ?_, ?_⟩
      · simp only [checkToolLoop, hc, Bool.false_eq_true, if_false, hrec]
        simp at h1
        simp [h1]
      · simp only [checkToolLoop, hc, Bool.false_eq_true, if_false, hrec]
        simp at h2
        simp [h2]

lemma checkFinalCommit_runSpec (cancelAt : Nat → Bool) (k : Nat) (obs extra : List Bool)
    (committed : List Msg) (hobs : true ∉ extra) :
    CheckRunSpec obs (checkFinalCommit cancelAt k (obs ++ extra) committed) := by
  by_cases hc : cancelAt k = true
  · exact ⟨extra ++ [true], by simp [checkFinalCommit, hc], by simp [checkFinalCommit, hc],
      by simp [checkFinalCommit, hc], by simp [hobs]⟩
  · rw [Bool.not_eq_true] at hc
    exact ⟨extra ++ [false], by simp [checkFinalCommit, hc],
      by simp [hobs], by simp [checkFinalCommit, hc], by simp [checkFinalCommit, hc]⟩

lemma checkRoundTools_spec (exec : ToolInvocation → String) (cancelAt : Nat → Bool)
    (toolUses : List ToolInvocation) (k : Nat) (obs extra : List Bool)
    (committed : List Msg) (hextra : true ∉ extra) :
    (∃ r, checkRoundTools exec cancelAt toolUses k (obs ++ extra) committed = Sum.inl r ∧
      CheckRunSpec obs r) ∨
    (∃ k' extra' committed',
      checkRoundTools exec cancelAt toolUses k (obs ++ extra) committed =
        Sum.inr (k', obs ++ extra', committed') ∧ true ∉ extra') := by
  simp only [checkRoundTools]
  by_cases hemp : toolUses.isEmpty = true
  · simp only [hemp, if_true]
    exact Or.inl ⟨_, rfl, checkFinalCommit_runSpec cancelAt k obs extra committed hextra⟩
  · simp only [hemp, Bool.false_eq_true, if_false]
    obtain ⟨extraT, hT1, hT2⟩ := checkToolLoop_obs exec cancelAt toolUses k (obs ++ extra)
    by_cases hcan : (checkToolLoop exec cancelAt toolUses k (obs ++ extra)).2.2.2 = true
    · simp only [hcan, if_true]
      refine Or.inl ⟨_, rfl, extra ++ extraT, ?_, fun _ => rfl, by simp, ?_⟩
      · simp [hT1, List.append_assoc]
      · intro hno _
        exact absurd (by
          have := hT2.mp hcan
          simp only [List.mem_append]
          exact Or.inr this) hno
    · rw [Bool.not_eq_true] at hcan
      simp only [hcan, Bool.false_eq_true, if_false]
      refine Or.inr ⟨(checkToolLoop exec cancelAt toolUses k (obs ++ extra)).1,
        extra ++ extraT,
        committed ++ [⟨Role.user,
          Content.blocks (checkToolLoop exec cancelAt toolUses k (obs ++ extra)).2.2.1⟩],
        ?_, ?_⟩
      · rw [hT1]
        simp [List.append_assoc]
      · have hT : true ∉ extraT := fun h => by simp [hT2.mpr h] at hcan
        simp only [List.mem_append, not_or]
        exact ⟨hextra, hT⟩

lemma checkRoundBody_spec (responses : Nat → List Block) (exec : ToolInvocation → String)
    (cancelAt : Nat → Bool) (req k : Nat) (obs : List Bool) (committed : List Msg) :
    (∃ r, checkRoundBody responses exec cancelAt req k obs committed = Sum.inl r ∧
      CheckRunSpec obs r) ∨
    (∃ k' extra committed',
      checkRoundBody responses exec cancelAt req k obs committed =
        Sum.inr (k', obs ++ extra, committed') ∧ true ∉ extra) := by
  simp only [checkRoundBody]
  by_cases hc : cancelAt k = true
  · simp only [hc, if_true]
    exact Or.inl ⟨_, rfl, [true], rfl, fun _ => rfl, by simp, by simp⟩
  · rw [Bool.not_eq_true] at hc
    simp only [hc, Bool.false_eq_true, if_false]
    by_cases hng : containsSubstr NO_GUIDANCE (firstTextOf (responses req)) = true
    · simp only [hng, if_true]
      exact Or.inl ⟨_, rfl, [false], rfl, by simp, fun _ _ => rfl, by simp⟩
    · rw [Bool.not_eq_true] at hng
      simp only [hng, Bool.false_eq_true, if_false]
      by_cases htext : firstTextOf (responses req) = ""
      · rw [htext, if_neg (fun h => h rfl)]
        exact checkRoundTools_spec exec cancelAt _ _ obs [false] _ (by simp)
      · rw [if_pos htext]
        by_cases hc' : cancelAt (k + 1) = true
        · simp only [hc', if_true]
          exact Or.inl ⟨_, rfl, [false, true], by simp, fun _ => rfl, by simp, by simp⟩
        · rw [Bool.not_eq_true] at hc'
          simp only [hc', Bool.false_eq_true, if_false]
          have h := checkRoundTools_spec exec cancelAt (toolInvocationsOf (responses req))
            (k + 1 + 1) obs [false, false]
            (committed ++ [⟨Role.assistant, Content.blocks (responses req)⟩]) (by simp)
          simpa using h

lemma checkRoundLoop_runSpec (responses : Nat → List Block) (exec : ToolInvocation → String)
    (cancelAt : Nat → Bool) :
    ∀ (remaining req k : Nat) (obs : List Bool) (committed : List Msg),
      CheckRunSpec obs (checkRoundLoop responses exec cancelAt remaining req k obs committed) := by
  intro remaining
  induction remaining with
  | zero =>
    intro req k obs committed
    rcases checkRoundBody_spec responses exec cancelAt req k obs committed with
      ⟨r, heq, hspec⟩ | ⟨k', extra, committed', heq, hextra⟩
    · rw [checkRoundLoop, heq]
      exact hspec
    · rw [checkRoundLoop, heq]
      exact checkFinalCommit_runSpec cancelAt k' obs extra committed' hextra
  | succ remaining' ih =>
    intro req k obs committed
    rcases checkRoundBody_spec responses exec cancelAt req k obs committed with
      ⟨r, heq, hspec⟩ | ⟨k', extra, committed', heq, hextra⟩
    · rw [checkRoundLoop, heq]
      exact hspec
    · rw [checkRoundLoop, heq]
      dsimp only
      by_cases hc : cancelAt k' = true
      · simp only [hc, if_true]
        refine ⟨extra ++ [true], by simp, fun _ => rfl, ?_, ?_⟩ <;>
          · intro hno
            simp at hno
      · rw [Bool.not_eq_true] at hc
        simp only [hc, Bool.false_eq_true, if_false]
        obtain ⟨extra2, h1, h2, h3, h4⟩ :=
          ih (req + 1) (k' + 1) (obs ++ extra ++ [false]) committed'
        refine ⟨extra ++ [false] ++ extra2, ?_, ?_, ?_, ?_⟩
        · rw [h1]
          simp [List.append_assoc]
        · intro hm
          apply h2
          simp only [List.mem_append] at hm
          rcases hm with (hm | hm) | hm
          · exact absurd hm hextra
          · simp at hm
          · exact hm
        · intro hno
          apply h3
          intro hm
          exact hno (by simp [List.mem_append, hm])
        · intro hno
          apply h4
          intro hm
          exact hno (by simp [List.mem_append, hm])

/-- C3 counterexample: the `text.includes('[NO_GUIDANCE_NEEDED]')` discard
(line 532) sits inside the round loop and fires on *every* round's response,
so an uncancelled run can end with zero turns appended even though provisional
turns were built.  First run: the single response is exactly the marker —
every checkpoint observed `false`, the provisional check-prompt turn is
discarded.  Second run: the initial response is marker-free and carries a
tool use, the tool executes and three provisional turns accumulate, then the
*follow-up* response contains the marker — all six checkpoints observed
`false`, yet all three provisional turns are discarded.  Both refute the
claimed "otherwise all provisional turns are appended together at the very
end". -/
theorem C3_no_guidance_discard_cex :
    (runRecurringCheck (fun _ => [Block.text "[NO_GUIDANCE_NEEDED]"]) (fun t => t.name)
        (fun _ => false) (Content.str "check prompt") =
      ⟨[], [⟨Role.user, Content.str "check prompt"⟩], [false, false], true⟩) ∧
    (runRecurringCheck
        (fun req => if req = 0 then
            [Block.text "Try the extrude tool next.",
             Block.toolUse "Progressed_Step" "in1" "id1"]
          else [Block.text "[NO_GUIDANCE_NEEDED]"])
        (fun t => t.name) (fun _ => false) (Content.str "check prompt") =
      ⟨[],
       [⟨Role.user, Content.str "check prompt"⟩,
        ⟨Role.assistant, Content.blocks
          [Block.text "Try the extrude tool next.",
           Block.toolUse "Progressed_Step" "in1" "id1"]⟩,
        ⟨Role.user, Content.blocks [Block.toolResult "id1" "Progressed_Step"]⟩],
       [false, false, false, false, false, false], true⟩) := by
  constructor <;> decide

/-- C3 (amended): every proactive-check run commits atomically — if the
cancellation flag is observed set at any checkpoint the run appends zero
turns; otherwise, if any round's response text (the initial one or any
follow-up after a tool round — the check of line 532 runs every round)
contained `[NO_GUIDANCE_NEEDED]`, the run likewise discards everything; and
only when neither happened are all provisional turns appended together at the
very end. -/
theorem C3_check_commit_atomic (responses : Nat → List Block)
    (exec : ToolInvocation → String) (cancelAt : Nat → Bool) (userContent : Content) :
    (true ∈ (runRecurringCheck responses exec cancelAt userContent).observed →
      (runRecurringCheck responses exec cancelAt userContent).appended = []) ∧
    (true ∉ (runRecurringCheck responses exec cancelAt userContent).observed →
      (runRecurringCheck responses exec cancelAt userContent).sawNoGuidance = true →
      (runRecurringCheck responses exec cancelAt userContent).appended = []) ∧
    (true ∉ (runRecurringCheck responses exec cancelAt userContent).observed →
      (runRecurringCheck responses exec cancelAt userContent).sawNoGuidance = false →
      (runRecurringCheck responses exec cancelAt userContent).appended =
        (runRecurringCheck responses exec cancelAt userContent).provisional) := by
  by_cases hc0 : cancelAt 0 = true
  · refine ⟨fun _ => ?_, fun hno => ?_, fun hno => ?_⟩ <;>
      simp [runRecurringCheck, hc0] at *
  · rw [Bool.not_eq_true] at hc0
    obtain ⟨extra, h1, h2, h3, h4⟩ := checkRoundLoop_runSpec responses exec cancelAt
      MAX_TOOL_ROUNDS 0 1 [false] [⟨Role.user, userContent⟩]
    have hrr : runRecurringCheck responses exec cancelAt userContent =
        checkRoundLoop responses exec cancelAt MAX_TOOL_ROUNDS 0 1 [false]
          [⟨Role.user, userContent⟩] := by
      simp [runRecurringCheck, hc0]
    rw [hrr, h1]
    refine ⟨fun hm => ?_, fun hno => ?_, fun hno => ?_⟩
    · exact h2 (by simpa using hm)
    · exact h3 (fun hm => hno (by simp [hm]))
    · exact h4 (fun hm => hno (by simp [hm]))

/-- Witness for C3: with the flag always set the run appends nothing; with the
flag never set and an ordinary guidance response, everything provisional is
appended. -/
theorem C3_check_commit_atomic_witness :
    (runRecurringCheck (fun _ => [Block.text "Tip here"]) (fun t => t.name)
      (fun _ => true) (Content.str "c")).appended = [] ∧
    (runRecurringCheck (fun _ => [Block.text "Tip here"]) (fun t => t.name)
      (fun _ => false) (Content.str "c")).appended =
      (runRecurringCheck (fun _ => [Block.text "Tip here"]) (fun t => t.name)
        (fun _ => false) (Content.str "c")).provisional :=
  ⟨(C3_check_commit_atomic (fun _ => [Block.text "Tip here"]) (fun t => t.name)
      (fun _ => true) (Content.str "c")).1 (by decide),
   (C3_check_commit_atomic (fun _ => [Block.text "Tip here"]) (fun t => t.name)
      (fun _ => false) (Content.str "c")).2.2 (by decide) (by decide)⟩

lemma audioOf_append (a b : List Out) : audioOf (a ++ b) = audioOf a ++ audioOf b := by
  simp [audioOf, List.filterMap_append]

/-- One step taken from an interrupted state with an empty pending slot, by an
event that is not a committed transcript, keeps the interrupt flag set, keeps
the pending slot empty, and forwards no audio. -/
lemma stepM_interrupted_frozen (s : LiveSt) (e : Ev)
    (hi : s.interrupted = true) (hp : s.hasPendingUserMessage = false)
    (hc : ∀ t, e ≠ Ev.commitTranscript t) :
    (stepM s e).1.interrupted = true ∧ (stepM s e).1.hasPendingUserMessage = false ∧
    audioOf (stepM s e).2 = [] := by
  cases e with
  | commitTranscript t => exact absurd rfl (hc t)
  | interimTranscript t =>
    simp only [stepM, onPartialTranscript, handleInterruption]
    split_ifs <;> simp [audioOf, hi, hp]
  | frame d => simp [stepM, audioOf, hi, hp]
  | playbackEnded => simp [stepM, audioOf, hi, hp]
  | audioChunk b => simp [stepM, onTTSAudioChunk, hi, audioOf, hp]
  | tick suf =>
    rcases hf : s.latestFrame with - | f <;>
      simp only [stepM, onTick, hf] <;>
      split_ifs <;>
      simp [audioOf, hi, hp]
  | claudeDone content =>
    cases hctl : s.control with
    | mainAwaitClaude isCont =>
      simp [stepM, hctl, mainClaudeDone, hi, finishCycle, hp, audioOf]
    | checkAwaitClaude remaining committed =>
      simp only [stepM, hctl, checkClaudeDone, checkFinally, checkToolsPhase, checkCommit,
        cycleEntry]
      split_ifs <;>
        (try rcases htc : toolInvocationsOf content with - | ⟨t, rest⟩) <;>
        simp_all [audioOf]
    | _ => simp [stepM, hctl, audioOf, hi, hp]
  | claudeFail =>
    cases hctl : s.control with
    | mainAwaitClaude isCont => simp [stepM, hctl, finishCycle, hp, audioOf, hi]
    | checkAwaitClaude remaining committed => simp [stepM, hctl, checkFinally, hp, audioOf, hi]
    | _ => simp [stepM, hctl, audioOf, hi, hp]
  | ttsAck =>
    cases hctl : s.control with
    | mainAwaitTTS isCont content =>
      simp only [stepM, hctl, mainTtsDone]
      rcases toolInvocationsOf content with - | ⟨t, rest⟩ <;>
        simp [finishCycle, hp, audioOf, hi]
    | checkAwaitTTS remaining committed toolUses =>
      simp only [stepM, hctl, checkTtsDone, checkFinally, checkToolsPhase, checkCommit,
        cycleEntry]
      split_ifs <;>
        (try rcases htc : toolUses with - | ⟨t, rest⟩) <;>
        simp_all [audioOf]
    | _ => simp [stepM, hctl, audioOf, hi, hp]
  | ttsFail =>
    cases hctl : s.control with
    | mainAwaitTTS isCont content => simp [stepM, hctl, finishCycle, hp, audioOf, hi]
    | checkAwaitTTS remaining committed toolUses =>
      simp [stepM, hctl, checkFinally, hp, audioOf, hi]
    | _ => simp [stepM, hctl, audioOf, hi, hp]
  | toolDone r =>
    cases hctl : s.control with
    | mainAwaitTool current todo done =>
      simp only [stepM, hctl, mainToolDone]
      rcases todo with - | ⟨t, rest⟩ <;> simp [finishCycle, hp, audioOf, hi]
    | checkAwaitTool remaining committed current todo done =>
      simp only [stepM, hctl, checkToolDone, checkFinally, checkCommit, cycleEntry]
      rcases todo with - | ⟨t, rest⟩
      · rcases remaining with - | r' <;> split_ifs <;> simp_all [audioOf]
      · split_ifs <;> simp_all [audioOf]
    | _ => simp [stepM, hctl, audioOf, hi, hp]

/-- Run version of `stepM_interrupted_frozen`: as long as no transcript is
committed, an interrupted session with nothing queued forwards no audio at
all and the flag stays set. -/
lemma runM_interrupted_frozen (evts : List Ev) : ∀ s : LiveSt,
    s.interrupted = true → s.hasPendingUserMessage = false →
    (∀ t, Ev.commitTranscript t ∈ evts → False) →
    (runM s evts).1.interrupted = true ∧
    (runM s evts).1.hasPendingUserMessage = false ∧
    audioOf (runM s evts).2 = [] := by
  induction evts with
  | nil => exact fun s hi hp _ => ⟨hi, hp, rfl⟩
  | cons e rest ih =>
    intro s hi hp hc
    obtain ⟨h1, h2, h3⟩ := stepM_interrupted_frozen s e hi hp
      (fun t ht => hc t (ht ▸ List.mem_cons_self e rest))
    obtain ⟨g1, g2, g3⟩ := ih (stepM s e).1 h1 h2
      (fun t ht => hc t (List.mem_cons_of_mem e ht))
    refine ⟨?_, ?_, ?_⟩ <;> simp [runM, audioOf_append, h3, g1, g2, g3]

/-!
Per-handler facts: each handler segment either leaves the interrupt flag
untouched or passes through the entry of a fresh `sendToClaudeAndSpeak` cycle
(which is the only place `this.interrupted = false` occurs, line 179, and
which is marked by `Out.cycleEntered`).
-/

lemma finishCycle_flag (s : LiveSt) :
    ((finishCycle s).1.interrupted = s.interrupted ∧ (finishCycle s).2 = []) ∨
    ∃ b, Out.cycleEntered b ∈ (finishCycle s).2 := by
  by_cases hp : s.hasPendingUserMessage = true
  · right
    refine ⟨false, ?_⟩
    simp [finishCycle, hp, cycleEntry]
  · left
    simp [finishCycle, hp]

lemma checkFinally_flag (s : LiveSt) :
    ((checkFinally s).1.interrupted = s.interrupted ∧ (checkFinally s).2 = []) ∨
    ∃ b, Out.cycleEntered b ∈ (checkFinally s).2 := by
  by_cases hp : s.hasPendingUserMessage = true
  · right
    refine ⟨false, ?_⟩
    simp [checkFinally, hp, cycleEntry]
  · left
    simp [checkFinally, hp]

lemma checkCommit_flag (committed : List Msg) (s : LiveSt) :
    (checkCommit committed s).1.interrupted = s.interrupted ∨
    ∃ b, Out.cycleEntered b ∈ (checkCommit committed s).2 := by
  simp only [checkCommit]
  split_ifs
  · rcases checkFinally_flag s with ⟨hf, -⟩ | hm
    · exact Or.inl hf
    · exact Or.inr hm
  · rcases checkFinally_flag { s with conv := s.conv ++ committed } with ⟨hf, -⟩ | hm
    · exact Or.inl hf
    · exact Or.inr hm

lemma checkToolsPhase_flag (remaining : Nat) (committed : List Msg)
    (toolUses : List ToolInvocation) (s : LiveSt) :
    (checkToolsPhase remaining committed toolUses s).1.interrupted = s.interrupted ∨
    ∃ b, Out.cycleEntered b ∈ (checkToolsPhase remaining committed toolUses s).2 := by
  rcases toolUses with - | ⟨t, rest⟩
  · exact checkCommit_flag committed s
  · simp only [checkToolsPhase]
    split_ifs
    · rcases checkFinally_flag s with ⟨hf, -⟩ | hm
      · exact Or.inl hf
      · exact Or.inr hm
    · exact Or.inl rfl

lemma checkClaudeDone_flag (remaining : Nat) (committed : List Msg)
    (content : List Block) (s : LiveSt) :
    (checkClaudeDone remaining committed content s).1.interrupted = s.interrupted ∨
    ∃ b, Out.cycleEntered b ∈ (checkClaudeDone remaining committed content s).2 := by
  simp only [checkClaudeDone]
  split_ifs
  · rcases checkFinally_flag s with ⟨hf, -⟩ | hm
    · exact Or.inl hf
    · exact Or.inr hm
  · rcases checkFinally_flag s with ⟨hf, -⟩ | hm
    · exact Or.inl hf
    · exact Or.inr hm
  · exact Or.inl rfl
  · exact checkToolsPhase_flag remaining
      (committed ++ [⟨Role.assistant, Content.blocks content⟩])
      (toolInvocationsOf content) s

lemma checkTtsDone_flag (remaining : Nat) (committed : List Msg)
    (toolUses : List ToolInvocation) (s : LiveSt) :
    (checkTtsDone remaining committed toolUses s).1.interrupted = s.interrupted ∨
    ∃ b, Out.cycleEntered b ∈ (checkTtsDone remaining committed toolUses s).2 := by
  simp only [checkTtsDone]
  split_ifs
  · rcases checkFinally_flag s with ⟨hf, -⟩ | hm
    · exact Or.inl hf
    · exact Or.inr hm
  · exact checkToolsPhase_flag remaining committed toolUses s

lemma checkToolDone_flag (remaining : Nat) (committed : List Msg)
    (current : ToolInvocation) (todo : List ToolInvocation) (done : List Block)
    (result : String) (s : LiveSt) :
    (checkToolDone remaining committed current todo done result s).1.interrupted =
      s.interrupted ∨
    ∃ b, Out.cycleEntered b ∈ (checkToolDone remaining committed current todo done result s).2 := by
  simp only [checkToolDone]
  rcases todo with - | ⟨t, rest⟩
  · rcases remaining with - | r'
    · exact checkCommit_flag _ s
    · split_ifs
      · rcases checkFinally_flag s with ⟨hf, -⟩ | hm
        · exact Or.inl hf
        · exact Or.inr hm
      · exact Or.inl rfl
  · split_ifs
    · rcases checkFinally_flag s with ⟨hf, -⟩ | hm
      · exact Or.inl hf
      · exact Or.inr hm
    · exact Or.inl rfl

lemma mainTtsDone_flag (isCont : Bool) (content : List Block) (s : LiveSt) :
    (mainTtsDone isCont content s).1.interrupted = s.interrupted ∨
    ∃ b, Out.cycleEntered b ∈ (mainTtsDone isCont content s).2 := by
  simp only [mainTtsDone]
  rcases toolInvocationsOf content with - | ⟨t, rest⟩
  · rcases finishCycle_flag
        { s with conv := s.conv ++ [⟨Role.assistant, Content.blocks content⟩] } with
      ⟨hf, -⟩ | hm
    · exact Or.inl hf
    · exact Or.inr hm
  · split_ifs
    · rcases finishCycle_flag
          { s with conv := s.conv ++ [⟨Role.assistant, Content.blocks content⟩] } with
        ⟨hf, -⟩ | hm
      · exact Or.inl hf
      · exact Or.inr hm
    · exact Or.inl rfl

lemma mainToolDone_flag (current : ToolInvocation) (todo : List ToolInvocation)
    (done : List Block) (result : String) (s : LiveSt) :
    (mainToolDone current todo done result s).1.interrupted = s.interrupted ∨
    ∃ b, Out.cycleEntered b ∈ (mainToolDone current todo done result s).2 := by
  simp only [mainToolDone]
  rcases todo with - | ⟨t, rest⟩
  · split_ifs with hint
    · rcases finishCycle_flag s with ⟨hf, -⟩ | hm
      · exact Or.inl hf
      · exact Or.inr hm
    · refine Or.inr ⟨true, ?_⟩
      simp [cycleEntry]
  · split_ifs
    · rcases finishCycle_flag s with ⟨hf, -⟩ | hm
      · exact Or.inl hf
      · exact Or.inr hm
    · exact Or.inl rfl

/-- The interrupt flag is cleared only by a step that passes through the entry
of a fresh main cycle (`sendToClaudeAndSpeak`, line 179), which emits
`Out.cycleEntered`. -/
lemma interrupted_cleared_only_by_entry (s : LiveSt) (e : Ev)
    (h : (stepM s e).1.interrupted = false) (hi : s.interrupted = true) :
    ∃ b, Out.cycleEntered b ∈ (stepM s e).2 := by
  cases e with
  | commitTranscript t =>
    by_cases ht : strTrim t = ""
    · simp [stepM, onCommittedTranscript, ht, hi] at h
    · by_cases hproc : s.isProcessing = true
      · simp [stepM, onCommittedTranscript, ht, handleInterruption, hproc] at h
      · refine ⟨false, ?_⟩
        simp [stepM, onCommittedTranscript, ht, handleInterruption, hproc, cycleEntry]
  | interimTranscript t =>
    simp only [stepM, onPartialTranscript, handleInterruption] at h
    split_ifs at h <;> simp_all
  | frame d => simp [stepM, hi] at h
  | playbackEnded => simp [stepM, hi] at h
  | audioChunk b =>
    simp only [stepM, onTTSAudioChunk] at h
    split_ifs at h <;> simp_all
  | tick suf =>
    rcases hf : s.latestFrame with - | f <;>
      simp only [stepM, onTick, hf] at h <;>
      split_ifs at h <;> simp_all
  | claudeDone content =>
    cases hctl : s.control with
    | mainAwaitClaude isCont =>
      simp only [stepM, hctl, mainClaudeDone, hi, if_true] at h ⊢
      rcases finishCycle_flag s with ⟨hf, -⟩ | hm
      · rw [hf, hi] at h
        cases h
      · exact hm
    | checkAwaitClaude remaining committed =>
      simp only [stepM, hctl] at h ⊢
      rcases checkClaudeDone_flag remaining committed content s with hf | hm
      · rw [hf, hi] at h
        cases h
      · exact hm
    | _ => simp_all [stepM]
  | claudeFail =>
    cases hctl : s.control with
    | mainAwaitClaude isCont =>
      simp only [stepM, hctl] at h ⊢
      rcases finishCycle_flag s with ⟨hf, -⟩ | hm
      · rw [hf, hi] at h
        cases h
      · exact hm
    | checkAwaitClaude remaining committed =>
      simp only [stepM, hctl] at h ⊢
      rcases checkFinally_flag s with ⟨hf, -⟩ | hm
      · rw [hf, hi] at h
        cases h
      · exact hm
    | _ => simp_all [stepM]
  | ttsAck =>
    cases hctl : s.control with
    | mainAwaitTTS isCont content =>
      simp only [stepM, hctl] at h ⊢
      rcases mainTtsDone_flag isCont content s with hf | hm
      · rw [hf, hi] at h
        cases h
      · exact hm
    | checkAwaitTTS remaining committed toolUses =>
      simp only [stepM, hctl] at h ⊢
      rcases checkTtsDone_flag remaining committed toolUses s with hf | hm
      · rw [hf, hi] at h
        cases h
      · exact hm
    | _ => simp_all [stepM]
  | ttsFail =>
    cases hctl : s.control with
    | mainAwaitTTS isCont content =>
      simp only [stepM, hctl] at h ⊢
      rcases finishCycle_flag s with ⟨hf, -⟩ | hm
      · rw [hf, hi] at h
        cases h
      · exact hm
    | checkAwaitTTS remaining committed toolUses =>
      simp only [stepM, hctl] at h ⊢
      rcases checkFinally_flag s with ⟨hf, -⟩ | hm
      · rw [hf, hi] at h
        cases h
      · exact hm
    | _ => simp_all [stepM]
  | toolDone r =>
    cases hctl : s.control with
    | mainAwaitTool current todo done =>
      simp only [stepM, hctl] at h ⊢
      rcases mainToolDone_flag current todo done r s with hf | hm
      · rw [hf, hi] at h
        cases h
      · exact hm
    | checkAwaitTool remaining committed current todo done =>
      simp only [stepM, hctl] at h ⊢
      rcases checkToolDone_flag remaining committed current todo done r s with hf | hm
      · rw [hf, hi] at h
        cases h
      · exact hm
    | _ => simp_all [stepM]

/-- C4: interruption is one synchronous action — the handler sets the
`InterruptFlag` together with the cancellation flag, tears the stream and the
synthesizer connection down, and emits `interrupt` in a single step — and
afterwards no TTS audio chunk is forwarded: a chunk arriving with the flag
set is dropped with no state change (`onTTSAudioChunk`, line 345), and for as
long as no committed transcript arrives to start a fresh cycle (the only
thing that resets the flag) an interrupted session with nothing queued
forwards no audio at all, whatever else happens. -/
theorem C4_interrupt_drops_all_audio :
    (∀ (s : LiveSt) (t : String), strTrim t ≠ "" →
      (s.isAgentCurrentlySpeaking || s.isProcessing || s.isRecurringCheckRunning) = true →
      stepM s (Ev.interimTranscript t) =
        ({ s with interrupted := true, recurringCheckCancelled := true,
                  isAgentCurrentlySpeaking := false }, [Out.interruptSignal])) ∧
    (∀ (s : LiveSt) (b : String), s.interrupted = true →
      stepM s (Ev.audioChunk b) = (s, [])) ∧
    (∀ (s : LiveSt) (evts : List Ev), s.interrupted = true →
      s.hasPendingUserMessage = false →
      (∀ t, Ev.commitTranscript t ∈ evts → False) →
      audioOf (runM s evts).2 = []) := by
  refine ⟨?_, ?_, ?_⟩
  · intro s t ht hg
    simp [stepM, onPartialTranscript, ht, hg, handleInterruption]
  · intro s b hi
    simp [stepM, onTTSAudioChunk, hi]
  · intro s evts hi hp hc
    exact (runM_interrupted_frozen evts s hi hp hc).2.2

/-- Witness for C4: a concrete speaking session is interrupted in one step,
and a concrete interrupted session drops every chunk across a run. -/
theorem C4_interrupt_drops_all_audio_witness :
    stepM ⟨[], false, false, false, false, false, true, none, "Blender screen", Ctl.idle⟩
        (Ev.interimTranscript "hey") =
      ({ (⟨[], false, false, false, false, false, true, none, "Blender screen",
            Ctl.idle⟩ : LiveSt) with
          interrupted := true, recurringCheckCancelled := true,
          isAgentCurrentlySpeaking := false }, [Out.interruptSignal]) ∧
    stepM ⟨[], false, true, false, false, true, false, none, "Blender screen", Ctl.idle⟩
        (Ev.audioChunk "AUDIO") =
      (⟨[], false, true, false, false, true, false, none, "Blender screen", Ctl.idle⟩, []) ∧
    audioOf (runM
      ⟨[], false, true, false, false, true, false, none, "Blender screen", Ctl.idle⟩
      [Ev.audioChunk "A1", Ev.ttsAck, Ev.audioChunk "A2"]).2 = [] :=
  ⟨C4_interrupt_drops_all_audio.1 _ "hey" (by decide) (by decide),
   C4_interrupt_drops_all_audio.2.1 _ "AUDIO" (by decide),
   C4_interrupt_drops_all_audio.2.2 _ _ (by decide) (by decide)
     (by intro t ht; simp at ht)⟩

/-- C10: the `InterruptFlag` is cleared only at the start of a main generation
cycle — a recurring-check tick never changes it, and any step that ends with
the flag cleared passed through a `sendToClaudeAndSpeak` entry — so after an
interruption with no commit since (e.g. one triggered by a partial transcript
that is never committed), a subsequent proactive check runs with the flag
still set and every TTS audio chunk it produces is discarded by
`onTTSAudioChunk` instead of being forwarded. -/
theorem C10_flag_survives_proactive_check :
    (∀ (s : LiveSt) (stepSuffix : String),
      (stepM s (Ev.tick stepSuffix)).1.interrupted = s.interrupted) ∧
    (∀ (s : LiveSt) (e : Ev), (stepM s e).1.interrupted = false →
      s.interrupted = true → ∃ b, Out.cycleEntered b ∈ (stepM s e).2) ∧
    (∀ (s : LiveSt) (stepSuffix : String) (chunks : List String),
      s.interrupted = true → s.hasPendingUserMessage = false →
      audioOf (runM s (Ev.tick stepSuffix :: chunks.map Ev.audioChunk)).2 = []) := by
  refine ⟨?_, interrupted_cleared_only_by_entry, ?_⟩
  · intro s stepSuffix
    rcases hf : s.latestFrame with - | f <;>
      simp only [stepM, onTick, hf] <;>
      split_ifs <;> rfl
  · intro s stepSuffix chunks hi hp
    refine (runM_interrupted_frozen _ s hi hp ?_).2.2
    intro t ht
    rcases List.mem_cons.mp ht with h | h
    · cases h
    · rcases List.mem_map.mp h with ⟨b, -, hb⟩
      cases hb

/-- Witness for C10: an interrupted idle session with a frame available runs a
proactive check whose audio chunks are all discarded. -/
theorem C10_flag_survives_proactive_check_witness :
    (stepM ⟨[⟨Role.user, Content.str "hi"⟩], false, true, false, false, false, false,
        some "F", "Blender screen", Ctl.idle⟩ (Ev.tick "")).1.interrupted = true ∧
    audioOf (runM ⟨[⟨Role.user, Content.str "hi"⟩], false, true, false, false, false,
        false, some "F", "Blender screen", Ctl.idle⟩
      (Ev.tick "" :: (["A1", "A2"].map Ev.audioChunk))).2 = [] :=
  ⟨C10_flag_survives_proactive_check.1
      ⟨[⟨Role.user, Content.str "hi"⟩], false, true, false, false, false, false,
        some "F", "Blender screen", Ctl.idle⟩ "",
   C10_flag_survives_proactive_check.2.2 _ "" ["A1", "A2"] (by decide) (by decide)⟩

/-!
Infrastructure for C6: no step of the machine ever loses a committed user
turn — every user turn keeps its position, its role and its texts (sanitize
never rewrites user turns; image pruning strips image blocks but keeps all
text blocks).
-/

lemma preservesUserTurns_refl (conv : List Msg) : preservesUserTurns conv conv :=
  fun _ m hm hr => ⟨m, hm, hr, rfl⟩

lemma preservesUserTurns_trans {a b c : List Msg} (h₁ : preservesUserTurns a b)
    (h₂ : preservesUserTurns b c) : preservesUserTurns a c := by
  intro i m hm hr
  obtain ⟨m', hm', hr', ht'⟩ := h₁ i m hm hr
  obtain ⟨m'', hm'', hr'', ht''⟩ := h₂ i m' hm' hr'
  exact ⟨m'', hm'', hr'', ht''.trans ht'⟩

lemma preservesUserTurns_append (conv suffix : List Msg) :
    preservesUserTurns conv (conv ++ suffix) := by
  intro i m hm hr
  refine ⟨m, ?_, hr, rfl⟩
  rw [List.getElem?_append_left]
  · exact hm
  · exact (List.getElem?_eq_some.mp hm).1

lemma sanitizeMsg_user (m : Msg) (next : Option Msg) (hr : m.role = Role.user) :
    sanitizeMsg m next = m := by
  have : m.role ≠ Role.assistant := by rw [hr]; intro h; cases h
  simp [sanitizeMsg, this]

lemma preservesUserTurns_sanitize (conv : List Msg) :
    preservesUserTurns conv (sanitizeConversation conv) := by
  intro i m hm hr
  rw [sanitizeConversation_getElem?, hm, Option.map_some']
  exact ⟨m, by rw [sanitizeMsg_user m _ hr], hr, rfl⟩

lemma filter_isText_filter_not_isImage (l : List Block) :
    (l.filter (fun b => !isImage b)).filter isText = l.filter isText := by
  induction l with
  | nil => rfl
  | cons b rest ih =>
    cases b <;> simp [List.filter_cons, isImage, isText, -List.filter_filter] <;> exact ih

lemma stripImages_msgTexts (m : Msg) : msgTexts (stripImages m) = msgTexts m := by
  rcases m with ⟨r, c⟩
  cases c with
  | str s => rfl
  | blocks l =>
    simp only [stripImages]
    split
    · next s heq =>
      have h1 : l.filter isText = [Block.text s] := by
        rw [← filter_isText_filter_not_isImage, heq]
        rfl
      simp [msgTexts, contentTexts, h1, textOf]
    · next =>
      simp [msgTexts, contentTexts, filter_isText_filter_not_isImage, -List.filter_filter]

lemma preservesUserTurns_prune (conv : List Msg) :
    preservesUserTurns conv (pruneOldImages conv) := by
  intro i m hm hr
  by_cases h : imageBearingCount conv ≤ MAX_CONTEXT_IMAGES
  · exact ⟨m, by simp [pruneOldImages, h, hm], hr, rfl⟩
  · simp only [pruneOldImages, h, ite_false]
    rw [stripFirstImages_getElem?, hm, Option.map_some']
    by_cases hcond : isImageBearing m = true ∧
        imageBearingCount (conv.take i) < imageBearingCount conv - MAX_CONTEXT_IMAGES
    · refine ⟨stripImages m, by rw [if_pos hcond], ?_, stripImages_msgTexts m⟩
      rw [stripImages_role, hr]
    · exact ⟨m, by rw [if_neg hcond], hr, rfl⟩

lemma preservesUserTurns_sanitize_prune (conv : List Msg) :
    preservesUserTurns conv (pruneOldImages (sanitizeConversation conv)) :=
  preservesUserTurns_trans (preservesUserTurns_sanitize conv)
    (preservesUserTurns_prune (sanitizeConversation conv))

lemma cycleEntry_preserves (isCont : Bool) (s : LiveSt) :
    preservesUserTurns s.conv (cycleEntry isCont s).1.conv := by
  by_cases hp : s.isProcessing = true
  · simp only [cycleEntry, hp, if_true]
    exact preservesUserTurns_refl s.conv
  · simp only [cycleEntry, hp, if_false]
    exact preservesUserTurns_sanitize_prune s.conv

lemma finishCycle_preserves (s : LiveSt) :
    preservesUserTurns s.conv (finishCycle s).1.conv := by
  by_cases hp : s.hasPendingUserMessage = true
  · simp only [finishCycle, hp, if_true]
    have h := cycleEntry_preserves false
      { s with isProcessing := false, control := Ctl.idle, hasPendingUserMessage := false }
    simpa using h
  · simp only [finishCycle, hp]
    simp only [Bool.false_eq_true, if_false]
    exact preservesUserTurns_refl s.conv

lemma checkFinally_preserves (s : LiveSt) :
    preservesUserTurns s.conv (checkFinally s).1.conv := by
  by_cases hp : s.hasPendingUserMessage = true
  · simp only [checkFinally, hp, if_true]
    have h := cycleEntry_preserves false
      { s with isRecurringCheckRunning := false, recurringCheckCancelled := false,
               isProcessing := false, control := Ctl.idle, hasPendingUserMessage := false }
    simpa using h
  · simp only [checkFinally, hp]
    simp only [Bool.false_eq_true, if_false]
    exact preservesUserTurns_refl s.conv

lemma checkCommit_preserves (committed : List Msg) (s : LiveSt) :
    preservesUserTurns s.conv (checkCommit committed s).1.conv := by
  simp only [checkCommit]
  split_ifs
  · exact checkFinally_preserves s
  · refine preservesUserTurns_trans (preservesUserTurns_append s.conv committed) ?_
    have h := checkFinally_preserves { s with conv := s.conv ++ committed }
    simpa using h

lemma checkToolsPhase_preserves (remaining : Nat) (committed : List Msg)
    (toolUses : List ToolInvocation) (s : LiveSt) :
    preservesUserTurns s.conv (checkToolsPhase remaining committed toolUses s).1.conv := by
  rcases toolUses with - | ⟨t, rest⟩
  · exact checkCommit_preserves committed s
  · simp only [checkToolsPhase]
    split_ifs
    · exact checkFinally_preserves s
    · exact preservesUserTurns_refl s.conv

lemma checkClaudeDone_preserves (remaining : Nat) (committed : List Msg)
    (content : List Block) (s : LiveSt) :
    preservesUserTurns s.conv (checkClaudeDone remaining committed content s).1.conv := by
  simp only [checkClaudeDone]
  split_ifs
  · exact checkFinally_preserves s
  · exact checkFinally_preserves s
  · exact preservesUserTurns_refl s.conv
  · exact checkToolsPhase_preserves remaining _ _ s

lemma checkTtsDone_preserves (remaining : Nat) (committed : List Msg)
    (toolUses : List ToolInvocation) (s : LiveSt) :
    preservesUserTurns s.conv (checkTtsDone remaining committed toolUses s).1.conv := by
  simp only [checkTtsDone]
  split_ifs
  · exact checkFinally_preserves s
  · exact checkToolsPhase_preserves remaining committed toolUses s

lemma checkToolDone_preserves (remaining : Nat) (committed : List Msg)
    (current : ToolInvocation) (todo : List ToolInvocation) (done : List Block)
    (result : String) (s : LiveSt) :
    preservesUserTurns s.conv
      (checkToolDone remaining committed current todo done result s).1.conv := by
  simp only [checkToolDone]
  rcases todo with - | ⟨t, rest⟩
  · rcases remaining with - | r'
    · exact checkCommit_preserves _ s
    · split_ifs
      · exact checkFinally_preserves s
      · exact preservesUserTurns_refl s.conv
  · split_ifs
    · exact checkFinally_preserves s
    · exact preservesUserTurns_refl s.conv

lemma mainTtsDone_preserves (isCont : Bool) (content : List Block) (s : LiveSt) :
    preservesUserTurns s.conv (mainTtsDone isCont content s).1.conv := by
  have hfc : preservesUserTurns s.conv
      (finishCycle
        { s with conv := s.conv ++ [⟨Role.assistant, Content.blocks content⟩] }).1.conv := by
    refine preservesUserTurns_trans
      (preservesUserTurns_append s.conv [⟨Role.assistant, Content.blocks content⟩]) ?_
    have h := finishCycle_preserves
      { s with conv := s.conv ++ [⟨Role.assistant, Content.blocks content⟩] }
    simpa using h
  simp only [mainTtsDone]
  rcases htc : toolInvocationsOf content with - | ⟨t, rest⟩ <;> simp only [htc]
  · exact hfc
  · split_ifs
    · exact hfc
    · exact preservesUserTurns_append s.conv _

lemma mainToolDone_preserves (current : ToolInvocation) (todo : List ToolInvocation)
    (done : List Block) (result : String) (s : LiveSt) :
    preservesUserTurns s.conv (mainToolDone current todo done result s).1.conv := by
  simp only [mainToolDone]
  rcases todo with - | ⟨t, rest⟩ <;> dsimp only
  · split_ifs
    · exact finishCycle_preserves s
    · refine preservesUserTurns_trans
        (preservesUserTurns_append s.conv
          [⟨Role.user, Content.blocks (done ++ [Block.toolResult current.id result])⟩]) ?_
      have h := cycleEntry_preserves true
        { s with
            conv := s.conv ++
              [⟨Role.user, Content.blocks (done ++ [Block.toolResult current.id result])⟩],
            isProcessing := false }
      simpa using h
  · split_ifs
    · exact finishCycle_preserves s
    · exact preservesUserTurns_refl s.conv

lemma cycleEntry_append_preserves (isCont : Bool) (s : LiveSt) (suffix : List Msg)
    (s' : LiveSt) (hconv : s'.conv = s.conv ++ suffix) :
    preservesUserTurns s.conv (cycleEntry isCont s').1.conv := by
  refine preservesUserTurns_trans (preservesUserTurns_append s.conv suffix) ?_
  have h := cycleEntry_preserves isCont s'
  rw [hconv] at h
  exact h

/-- No machine step drops, moves or rewrites a committed user turn. -/
lemma stepM_preserves_user_turns (s : LiveSt) (e : Ev) :
    preservesUserTurns s.conv (stepM s e).1.conv := by
  cases e with
  | commitTranscript t =>
    by_cases ht : strTrim t = ""
    · simp only [stepM, onCommittedTranscript, if_pos ht]
      exact preservesUserTurns_refl s.conv
    · simp only [stepM, onCommittedTranscript, if_neg ht, handleInterruption]
      by_cases hl : (s.conv.getLast?).map Msg.role = some Role.user <;>
        simp only [hl, ite_true, ite_false] <;>
        by_cases hproc : s.isProcessing = true <;>
        simp [hproc] <;>
        first
          | exact preservesUserTurns_append s.conv _
          | exact cycleEntry_append_preserves false s _ _ rfl
  | interimTranscript t =>
    simp only [stepM, onPartialTranscript, handleInterruption]
    split_ifs <;> exact preservesUserTurns_refl s.conv
  | frame d => exact preservesUserTurns_refl s.conv
  | playbackEnded => exact preservesUserTurns_refl s.conv
  | audioChunk b =>
    simp only [stepM, onTTSAudioChunk]
    split_ifs <;> exact preservesUserTurns_refl s.conv
  | tick suf =>
    rcases hf : s.latestFrame with - | f <;>
      simp only [stepM, onTick, hf] <;>
      split_ifs <;>
      first
        | exact preservesUserTurns_refl s.conv
        | exact preservesUserTurns_sanitize_prune s.conv
  | claudeDone content =>
    cases hctl : s.control with
    | mainAwaitClaude isCont =>
      simp only [stepM, hctl, mainClaudeDone]
      split_ifs
      · exact finishCycle_preserves s
      · exact preservesUserTurns_refl s.conv
    | checkAwaitClaude remaining committed =>
      simp only [stepM, hctl]
      exact checkClaudeDone_preserves remaining committed content s
    | _ => simp only [stepM, hctl] <;> exact preservesUserTurns_refl s.conv
  | claudeFail =>
    cases hctl : s.control with
    | mainAwaitClaude isCont =>
      simp only [stepM, hctl]
      exact finishCycle_preserves s
    | checkAwaitClaude remaining committed =>
      simp only [stepM, hctl]
      exact checkFinally_preserves s
    | _ => simp only [stepM, hctl] <;> exact preservesUserTurns_refl s.conv
  | ttsAck =>
    cases hctl : s.control with
    | mainAwaitTTS isCont content =>
      simp only [stepM, hctl]
      exact mainTtsDone_preserves isCont content s
    | checkAwaitTTS remaining committed toolUses =>
      simp only [stepM, hctl]
      exact checkTtsDone_preserves remaining committed toolUses s
    | _ => simp only [stepM, hctl] <;> exact preservesUserTurns_refl s.conv
  | ttsFail =>
    cases hctl : s.control with
    | mainAwaitTTS isCont content =>
      simp only [stepM, hctl]
      exact finishCycle_preserves s
    | checkAwaitTTS remaining committed toolUses =>
      simp only [stepM, hctl]
      exact checkFinally_preserves s
    | _ => simp only [stepM, hctl] <;> exact preservesUserTurns_refl s.conv
  | toolDone r =>
    cases hctl : s.control with
    | mainAwaitTool current todo done =>
      simp only [stepM, hctl]
      exact mainToolDone_preserves current todo done r s
    | checkAwaitTool remaining committed current todo done =>
      simp only [stepM, hctl]
      exact checkToolDone_preserves remaining committed current todo done r s
    | _ => simp only [stepM, hctl] <;> exact preservesUserTurns_refl s.conv

lemma cycleEntryCount_append (a b : List Out) :
    cycleEntryCount (a ++ b) = cycleEntryCount a + cycleEntryCount b := by
  simp [cycleEntryCount, List.filter_append]

lemma cycleEntry_count (isCont : Bool) (s : LiveSt) :
    cycleEntryCount (cycleEntry isCont s).2 ≤ 1 := by
  by_cases hp : s.isProcessing = true <;> simp [cycleEntry, hp, cycleEntryCount]

lemma finishCycle_count (s : LiveSt) : cycleEntryCount (finishCycle s).2 ≤ 1 := by
  by_cases hp : s.hasPendingUserMessage = true
  · simp only [finishCycle, hp, if_true]
    exact cycleEntry_count false _
  · simp [finishCycle, hp, cycleEntryCount]

lemma checkFinally_count (s : LiveSt) : cycleEntryCount (checkFinally s).2 ≤ 1 := by
  by_cases hp : s.hasPendingUserMessage = true
  · simp only [checkFinally, hp, if_true]
    exact cycleEntry_count false _
  · simp [checkFinally, hp, cycleEntryCount]

lemma checkCommit_count (committed : List Msg) (s : LiveSt) :
    cycleEntryCount (checkCommit committed s).2 ≤ 1 := by
  simp only [checkCommit]
  split_ifs <;> exact checkFinally_count _

lemma checkToolsPhase_count (remaining : Nat) (committed : List Msg)
    (toolUses : List ToolInvocation) (s : LiveSt) :
    cycleEntryCount (checkToolsPhase remaining committed toolUses s).2 ≤ 1 := by
  rcases toolUses with - | ⟨t, rest⟩
  · exact checkCommit_count committed s
  · simp only [checkToolsPhase]
    split_ifs
    · exact checkFinally_count s
    · simp [cycleEntryCount]

/-- No single step enters the body of `sendToClaudeAndSpeak` more than once:
a queued utterance can never start two cycles. -/
lemma stepM_entry_count (s : LiveSt) (e : Ev) : cycleEntryCount (stepM s e).2 ≤ 1 := by
  cases e with
  | commitTranscript t =>
    by_cases ht : strTrim t = ""
    · simp [stepM, onCommittedTranscript, ht, cycleEntryCount]
    · simp only [stepM, onCommittedTranscript, if_neg ht, handleInterruption]
      by_cases hproc : s.isProcessing = true <;>
        simp [hproc, cycleEntryCount_append] <;>
        [simp [cycleEntryCount]; skip] <;>
        · have h := cycleEntry_count false
          split_ifs <;>
            first
              | simpa [cycleEntryCount] using cycleEntry_count false _
              | simp [cycleEntryCount]
  | interimTranscript t =>
    simp only [stepM, onPartialTranscript, handleInterruption]
    split_ifs <;> simp [cycleEntryCount]
  | frame d => simp [stepM, cycleEntryCount]
  | playbackEnded => simp [stepM, cycleEntryCount]
  | audioChunk b =>
    simp only [stepM, onTTSAudioChunk]
    split_ifs <;> simp [cycleEntryCount]
  | tick suf =>
    rcases hf : s.latestFrame with - | f <;>
      simp only [stepM, onTick, hf] <;>
      split_ifs <;> simp [cycleEntryCount]
  | claudeDone content =>
    cases hctl : s.control with
    | mainAwaitClaude isCont =>
      simp only [stepM, hctl, mainClaudeDone]
      split_ifs
      · exact finishCycle_count s
      · simp [cycleEntryCount]
    | checkAwaitClaude remaining committed =>
      simp only [stepM, hctl, checkClaudeDone]
      split_ifs <;>
        first
          | exact checkFinally_count s
          | exact checkToolsPhase_count _ _ _ s
          | simp [cycleEntryCount]
    | _ => simp [stepM, hctl, cycleEntryCount]
  | claudeFail =>
    cases hctl : s.control with
    | mainAwaitClaude isCont =>
      simp only [stepM, hctl]
      exact finishCycle_count s
    | checkAwaitClaude remaining committed =>
      simp only [stepM, hctl]
      exact checkFinally_count s
    | _ => simp [stepM, hctl, cycleEntryCount]
  | ttsAck =>
    cases hctl : s.control with
    | mainAwaitTTS isCont content =>
      simp only [stepM, hctl, mainTtsDone]
      rcases toolInvocationsOf content with - | ⟨t, rest⟩ <;> dsimp only
      · exact finishCycle_count _
      · split_ifs
        · exact finishCycle_count _
        · simp [cycleEntryCount]
    | checkAwaitTTS remaining committed toolUses =>
      simp only [stepM, hctl, checkTtsDone]
      split_ifs
      · exact checkFinally_count s
      · exact checkToolsPhase_count _ _ _ s
    | _ => simp [stepM, hctl, cycleEntryCount]
  | ttsFail =>
    cases hctl : s.control with
    | mainAwaitTTS isCont content =>
      simp only [stepM, hctl]
      exact finishCycle_count s
    | checkAwaitTTS remaining committed toolUses =>
      simp only [stepM, hctl]
      exact checkFinally_count s
    | _ => simp [stepM, hctl, cycleEntryCount]
  | toolDone r =>
    cases hctl : s.control with
    | mainAwaitTool current todo done =>
      simp only [stepM, hctl, mainToolDone]
      rcases todo with - | ⟨t, rest⟩ <;> dsimp only
      · split_ifs
        · exact finishCycle_count s
        · exact cycleEntry_count true _
      · split_ifs
        · exact finishCycle_count s
        · simp [cycleEntryCount]
    | checkAwaitTool remaining committed current todo done =>
      simp only [stepM, hctl, checkToolDone]
      rcases todo with - | ⟨t, rest⟩ <;> dsimp only
      · rcases remaining with - | r' <;> dsimp only
        · exact checkCommit_count _ s
        · split_ifs
          · exact checkFinally_count s
          · simp [cycleEntryCount]
      · split_ifs
        · exact checkFinally_count s
        · simp [cycleEntryCount]
    | _ => simp [stepM, hctl, cycleEntryCount]

lemma finishCycle_release (s : LiveSt) (hp : s.hasPendingUserMessage = true) :
    (finishCycle s).1.hasPendingUserMessage = false ∧
    Out.cycleEntered false ∈ (finishCycle s).2 ∧
    (finishCycle s).1.control = Ctl.mainAwaitClaude false ∧
    (finishCycle s).1.isProcessing = true := by
  simp [finishCycle, hp, cycleEntry]

lemma checkFinally_release (s : LiveSt) (hp : s.hasPendingUserMessage = true) :
    (checkFinally s).1.hasPendingUserMessage = false ∧
    Out.cycleEntered false ∈ (checkFinally s).2 ∧
    (checkFinally s).1.control = Ctl.mainAwaitClaude false ∧
    (checkFinally s).1.isProcessing = true := by
  simp [checkFinally, hp, cycleEntry]

/-- The queued-message slot is cleared only by handing the queued message its
own fresh cycle: whenever a step of the machine takes the pending flag from
`true` to `false`, that step entered `sendToClaudeAndSpeak` afresh (not as a
tool-round continuation) and left it awaiting its generation request. -/
lemma stepM_pending_release (s : LiveSt) (e : Ev)
    (hp : s.hasPendingUserMessage = true)
    (h : (stepM s e).1.hasPendingUserMessage = false) :
    Out.cycleEntered false ∈ (stepM s e).2 ∧
    (stepM s e).1.control = Ctl.mainAwaitClaude false ∧
    (stepM s e).1.isProcessing = true := by
  cases e with
  | commitTranscript t =>
    by_cases ht : strTrim t = ""
    · simp [stepM, onCommittedTranscript, ht, hp] at h
    · by_cases hproc : s.isProcessing = true
      · simp [stepM, onCommittedTranscript, ht, hproc, handleInterruption] at h
      · simp [stepM, onCommittedTranscript, ht, hproc, handleInterruption, cycleEntry,
          hp] at h
  | interimTranscript t =>
    simp only [stepM, onPartialTranscript, handleInterruption] at h
    split_ifs at h <;> simp_all
  | frame d => simp [stepM, hp] at h
  | playbackEnded => simp [stepM, hp] at h
  | audioChunk b =>
    simp only [stepM, onTTSAudioChunk] at h
    split_ifs at h <;> simp_all
  | tick suf =>
    rcases hf : s.latestFrame with - | f <;>
      simp only [stepM, onTick, hf] at h <;>
      split_ifs at h <;> simp_all
  | claudeDone content =>
    cases hctl : s.control with
    | mainAwaitClaude isCont =>
      simp only [stepM, hctl, mainClaudeDone] at h ⊢
      split_ifs at h ⊢ with hint
      · exact (finishCycle_release s hp).2
      · simp_all
    | checkAwaitClaude remaining committed =>
      simp only [stepM, hctl, checkClaudeDone] at h ⊢
      split_ifs at h ⊢
      · exact (checkFinally_release s hp).2
      · exact (checkFinally_release s hp).2
      · simp_all
      · rcases htc : toolInvocationsOf content with - | ⟨t, rest⟩ <;>
          simp only [htc, checkToolsPhase, checkCommit] at h ⊢
        · split_ifs at h ⊢
          exact (checkFinally_release { s with conv := s.conv ++
              (committed ++ [⟨Role.assistant, Content.blocks content⟩]) } (by simpa using hp)).2
        · split_ifs at h ⊢
          simp_all
    | _ => simp_all [stepM]
  | claudeFail =>
    cases hctl : s.control with
    | mainAwaitClaude isCont =>
      simp only [stepM, hctl] at h ⊢
      exact (finishCycle_release s hp).2
    | checkAwaitClaude remaining committed =>
      simp only [stepM, hctl] at h ⊢
      exact (checkFinally_release s hp).2
    | _ => simp_all [stepM]
  | ttsAck =>
    cases hctl : s.control with
    | mainAwaitTTS isCont content =>
      simp only [stepM, hctl, mainTtsDone] at h ⊢
      rcases htc : toolInvocationsOf content with - | ⟨t, rest⟩ <;>
        simp only [htc] at h ⊢ <;> (try dsimp only at h ⊢)
      · exact (finishCycle_release _ (by simpa using hp)).2
      · split_ifs at h ⊢
        · exact (finishCycle_release _ (by simpa using hp)).2
        · simp_all
    | checkAwaitTTS remaining committed toolUses =>
      simp only [stepM, hctl, checkTtsDone] at h ⊢
      split_ifs at h ⊢
      · exact (checkFinally_release s hp).2
      · rcases toolUses with - | ⟨t, rest⟩ <;>
          simp only [checkToolsPhase, checkCommit] at h ⊢
        · split_ifs at h ⊢
          exact (checkFinally_release { s with conv := s.conv ++ committed }
              (by simpa using hp)).2
        · split_ifs at h ⊢
          simp_all
    | _ => simp_all [stepM]
  | ttsFail =>
    cases hctl : s.control with
    | mainAwaitTTS isCont content =>
      simp only [stepM, hctl] at h ⊢
      exact (finishCycle_release s hp).2
    | checkAwaitTTS remaining committed toolUses =>
      simp only [stepM, hctl] at h ⊢
      exact (checkFinally_release s hp).2
    | _ => simp_all [stepM]
  | toolDone r =>
    cases hctl : s.control with
    | mainAwaitTool current todo done =>
      simp only [stepM, hctl, mainToolDone] at h ⊢
      rcases todo with - | ⟨t, rest⟩ <;> dsimp only at h ⊢
      · split_ifs at h ⊢
        · exact (finishCycle_release s hp).2
        · simp only [cycleEntry] at h ⊢
          split_ifs at h ⊢ <;> simp_all
      · split_ifs at h ⊢
        · exact (finishCycle_release s hp).2
        · simp_all
    | checkAwaitTool remaining committed current todo done =>
      simp only [stepM, hctl, checkToolDone] at h ⊢
      rcases todo with - | ⟨t, rest⟩ <;> dsimp only at h ⊢
      · rcases remaining with - | r' <;> dsimp only at h ⊢
        · simp only [checkCommit] at h ⊢
          split_ifs at h ⊢
          · exact (checkFinally_release s hp).2
          · exact (checkFinally_release { s with conv := s.conv ++
              (committed ++ [⟨Role.user,
                Content.blocks (done ++ [Block.toolResult current.id r])⟩]) }
              (by simpa using hp)).2
        · split_ifs at h ⊢
          · exact (checkFinally_release s hp).2
          · simp_all
      · split_ifs at h ⊢
        · exact (checkFinally_release s hp).2
        · simp_all
    | _ => simp_all [stepM]

/-- C6: a user utterance committed while a cycle (main or proactive) is active
is queued exactly once and released exactly once.  (1) Queueing: if
`isProcessing` is set when a non-blank transcript commits, the step appends
the utterance to the history as a user turn (preceded by the assistant
placeholder when the history ended on a user turn), sets the single-slot
pending flag, and emits no generation request and no cycle entry — the
utterance is recorded, not processed.  (2) No step enters the generation-cycle
body more than once, so the queued utterance cannot be processed twice.
(3) Release: any step that clears the pending flag enters a fresh
(non-continuation) cycle in that very step, leaving the machine processing
and awaiting the generation response — the queued utterance is never silently
dropped.  (4) No step erases or rewrites an existing user turn, so the
recorded utterance survives at its position with its text intact until that
release, which happens only after the active cycle's unwind (`finishCycle` or
the check's `finally`) runs. -/
theorem C6_queued_exactly_once :
    (∀ (s : LiveSt) (u : String), strTrim u ≠ "" → s.isProcessing = true →
      (stepM s (Ev.commitTranscript u)).1.hasPendingUserMessage = true ∧
      (stepM s (Ev.commitTranscript u)).1.conv =
        (if (s.conv.getLast?).map Msg.role = some Role.user then
          s.conv ++ [⟨Role.assistant, Content.str interruptedPlaceholder⟩]
        else s.conv) ++ [⟨Role.user, buildUserContent s.latestFrame u⟩] ∧
      requestsOf (stepM s (Ev.commitTranscript u)).2 = [] ∧
      cycleEntryCount (stepM s (Ev.commitTranscript u)).2 = 0) ∧
    (∀ (s : LiveSt) (e : Ev), cycleEntryCount (stepM s e).2 ≤ 1) ∧
    (∀ (s : LiveSt) (e : Ev), s.hasPendingUserMessage = true →
      (stepM s e).1.hasPendingUserMessage = false →
      Out.cycleEntered false ∈ (stepM s e).2 ∧
      (stepM s e).1.control = Ctl.mainAwaitClaude false ∧
      (stepM s e).1.isProcessing = true) ∧
    (∀ (s : LiveSt) (e : Ev), preservesUserTurns s.conv (stepM s e).1.conv) := by
  refine ⟨?_, stepM_entry_count, stepM_pending_release, stepM_preserves_user_turns⟩
  intro s u hu hproc
  simp [stepM, onCommittedTranscript, hu, hproc, handleInterruption, requestsOf,
    cycleEntryCount]

theorem C6_queued_exactly_once_witness :
    ((stepM ⟨[], true, false, false, false, false, false, none, "Blender screen",
        Ctl.mainAwaitClaude false⟩ (Ev.commitTranscript "make it red")).1.hasPendingUserMessage
        = true ∧
      (stepM ⟨[], true, false, false, false, false, false, none, "Blender screen",
        Ctl.mainAwaitClaude false⟩ (Ev.commitTranscript "make it red")).1.conv =
        [⟨Role.user, Content.str "make it red"⟩] ∧
      requestsOf (stepM ⟨[], true, false, false, false, false, false, none,
        "Blender screen", Ctl.mainAwaitClaude false⟩
        (Ev.commitTranscript "make it red")).2 = [] ∧
      cycleEntryCount (stepM ⟨[], true, false, false, false, false, false, none,
        "Blender screen", Ctl.mainAwaitClaude false⟩
        (Ev.commitTranscript "make it red")).2 = 0) ∧
    cycleEntryCount (stepM ⟨[], true, false, false, false, false, false, none,
      "Blender screen", Ctl.mainAwaitClaude false⟩ Ev.playbackEnded).2 ≤ 1 ∧
    (Out.cycleEntered false ∈ (stepM ⟨[], true, true, true, false, false, false, none,
        "Blender screen", Ctl.mainAwaitClaude false⟩ Ev.claudeFail).2 ∧
      (stepM ⟨[], true, true, true, false, false, false, none, "Blender screen",
        Ctl.mainAwaitClaude false⟩ Ev.claudeFail).1.control = Ctl.mainAwaitClaude false ∧
      (stepM ⟨[], true, true, true, false, false, false, none, "Blender screen",
        Ctl.mainAwaitClaude false⟩ Ev.claudeFail).1.isProcessing = true) ∧
    preservesUserTurns [⟨Role.user, Content.str "hi"⟩]
      (stepM ⟨[⟨Role.user, Content.str "hi"⟩], true, false, false, false, false, false,
        none, "Blender screen", Ctl.mainAwaitClaude false⟩ Ev.playbackEnded).1.conv := by
  have h1 := C6_queued_exactly_once.1
    ⟨[], true, false, false, false, false, false, none, "Blender screen",
      Ctl.mainAwaitClaude false⟩ "make it red" (by decide) (by decide)
  refine ⟨⟨h1.1, ?_, h1.2.2.1, h1.2.2.2⟩,
    C6_queued_exactly_once.2.1 _ Ev.playbackEnded,
    C6_queued_exactly_once.2.2.1
      ⟨[], true, true, true, false, false, false, none, "Blender screen",
        Ctl.mainAwaitClaude false⟩ Ev.claudeFail (by decide) (by decide),
    C6_queued_exactly_once.2.2.2
      ⟨[⟨Role.user, Content.str "hi"⟩], true, false, false, false, false, false,
        none, "Blender screen", Ctl.mainAwaitClaude false⟩ Ev.playbackEnded⟩
  simpa using h1.2.1

/-!
## C1 infrastructure: the relaxed invariant through sanitize, prune and append
-/

lemma chainPairs_cons_iff (p : Msg → Msg → Bool) (a : Msg) (l : List Msg) :
    chainPairs p (a :: l) = true ↔
      (∀ b, l.head? = some b → p a b = true) ∧ chainPairs p l = true := by
  cases l with
  | nil => simp [chainPairs]
  | cons b ys => simp [chainPairs, and_comm]

lemma chainPairs_append_iff (p : Msg → Msg → Bool) :
    ∀ (x y : List Msg), chainPairs p (x ++ y) = true ↔
      chainPairs p x = true ∧ chainPairs p y = true ∧
      ∀ a b, x.getLast? = some a → y.head? = some b → p a b = true := by
  intro x
  induction x with
  | nil => intro y; simp [chainPairs]
  | cons m xs ih =>
    intro y
    rw [List.cons_append, chainPairs_cons_iff, chainPairs_cons_iff, ih]
    cases xs with
    | nil =>
      cases y with
      | nil => simp [chainPairs]
      | cons b ys => simp [chainPairs]; tauto
    | cons m2 xs2 => simp [List.getLast?_cons_cons]; tauto

lemma relaxed_parts {conv : List Msg} (h : relaxedAlternationOK conv = true) :
    headNotResults conv = true ∧ chainPairs relaxedPairOK conv = true := by
  simpa [relaxedAlternationOK, Bool.and_eq_true] using h

lemma relaxed_of_parts {conv : List Msg} (h1 : headNotResults conv = true)
    (h2 : chainPairs relaxedPairOK conv = true) :
    relaxedAlternationOK conv = true := by
  simp [relaxedAlternationOK, h1, h2]

lemma relaxedPairOK_assistant (a b : Msg) (hb : b.role = Role.assistant) :
    relaxedPairOK a b = true := by
  simp [relaxedPairOK, isToolResultsMsg, hb]

lemma relaxedPairOK_goodHead (a b : Msg) (h1 : isCheckPromptMsg b = true)
    (h2 : isToolResultsMsg b = false) : relaxedPairOK a b = true := by
  simp [relaxedPairOK, h1, h2]

lemma relaxedPairOK_matched (a b : Msg) (h : matchedToolPair a b = true) :
    relaxedPairOK a b = true := by
  have ha : a.role = Role.assistant := by
    simp only [matchedToolPair, Bool.and_eq_true, decide_eq_true_eq] at h
    exact h.1
  simp [relaxedPairOK, ha, h]

lemma relaxedPairOK_nonuser_pred (a b : Msg) (ha : ¬ a.role = Role.user)
    (hb : isToolResultsMsg b = false) : relaxedPairOK a b = true := by
  simp [relaxedPairOK, ha, hb]

lemma relaxed_append_one {conv : List Msg} {b : Msg}
    (h : relaxedAlternationOK conv = true)
    (hseam : ∀ a, conv.getLast? = some a → relaxedPairOK a b = true)
    (hb : isToolResultsMsg b = false ∨ conv ≠ []) :
    relaxedAlternationOK (conv ++ [b]) = true := by
  obtain ⟨h1, h2⟩ := relaxed_parts h
  apply relaxed_of_parts
  · cases conv with
    | nil =>
      rcases hb with hb | hb
      · simpa [headNotResults] using hb
      · exact absurd rfl hb
    | cons m t => simpa [headNotResults] using h1
  · rw [chainPairs_append_iff]
    refine ⟨h2, by simp [chainPairs], ?_⟩
    intro a b' ha hb'
    simp only [List.head?_cons, Option.some.injEq] at hb'
    subst hb'
    exact hseam a ha

lemma relaxed_snoc_assistant {conv : List Msg} {b : Msg}
    (h : relaxedAlternationOK conv = true) (hb : b.role = Role.assistant) :
    relaxedAlternationOK (conv ++ [b]) = true :=
  relaxed_append_one h (fun a _ => relaxedPairOK_assistant a b hb)
    (Or.inl (by simp [isToolResultsMsg, hb]))

lemma sanitizeMsg_role (m : Msg) (next : Option Msg) :
    (sanitizeMsg m next).role = m.role := by
  simp only [sanitizeMsg]
  split_ifs <;> rfl

lemma isToolResultsMsg_sanitizeMsg (m : Msg) (next : Option Msg) :
    isToolResultsMsg (sanitizeMsg m next) = isToolResultsMsg m := by
  by_cases hr : m.role = Role.user
  · rw [sanitizeMsg_user m next hr]
  · have e1 : isToolResultsMsg (sanitizeMsg m next) = false := by
      simp [isToolResultsMsg, sanitizeMsg_role, hr]
    have e2 : isToolResultsMsg m = false := by simp [isToolResultsMsg, hr]
    rw [e1, e2]

lemma sanitizeMsg_of_results (a b : Msg) (hres : isToolResultsMsg b = true) :
    sanitizeMsg a (some b) = a := by
  have hv : (decide (b.role = Role.user) &&
      (blocksArr b.content).any isToolResult) = true := by
    simpa [isToolResultsMsg] using hres
  simp only [sanitizeMsg, hv, if_true]
  split_ifs <;> rfl

lemma relaxedPairOK_sanitizeMsg (a b : Msg) (nxt : Option Msg)
    (h : relaxedPairOK a b = true) :
    relaxedPairOK (sanitizeMsg a (some b)) (sanitizeMsg b nxt) = true := by
  cases hrole : b.role with
  | assistant =>
    apply relaxedPairOK_assistant
    rw [sanitizeMsg_role]
    exact hrole
  | user =>
    rw [sanitizeMsg_user b nxt hrole]
    cases hres : isToolResultsMsg b with
    | true =>
      rw [sanitizeMsg_of_results a b hres]
      exact h
    | false =>
      simp only [relaxedPairOK, Bool.and_eq_true, Bool.or_eq_true] at h ⊢
      refine ⟨?_, Or.inl (by simp [hres])⟩
      rcases h.1 with h1 | h1
      · exact Or.inl (by simpa [sanitizeMsg_role] using h1)
      · exact Or.inr h1

lemma sanitizeConversation_cons (m : Msg) (l : List Msg) :
    sanitizeConversation (m :: l) =
      sanitizeMsg m l.head? :: sanitizeConversation l := by
  cases l <;> rfl

lemma chainPairs_sanitize : ∀ l, chainPairs relaxedPairOK l = true →
    chainPairs relaxedPairOK (sanitizeConversation l) = true := by
  intro l
  induction l with
  | nil => intro _; simp [sanitizeConversation, chainPairs]
  | cons m l ih =>
    intro h
    rw [chainPairs_cons_iff] at h
    rw [sanitizeConversation_cons, chainPairs_cons_iff]
    refine ⟨?_, ih h.2⟩
    intro b' hb'
    cases l with
    | nil => simp [sanitizeConversation] at hb'
    | cons m2 l2 =>
      rw [sanitizeConversation_cons] at hb'
      simp only [List.head?_cons, Option.some.injEq] at hb'
      subst hb'
      exact relaxedPairOK_sanitizeMsg m m2 l2.head? (h.1 m2 rfl)

lemma headNotResults_sanitize (l : List Msg) (h : headNotResults l = true) :
    headNotResults (sanitizeConversation l) = true := by
  cases l with
  | nil => simpa using h
  | cons m l =>
    rw [sanitizeConversation_cons]
    simpa [headNotResults, isToolResultsMsg_sanitizeMsg] using h

lemma relaxed_sanitize {conv : List Msg} (h : relaxedAlternationOK conv = true) :
    relaxedAlternationOK (sanitizeConversation conv) = true := by
  obtain ⟨h1, h2⟩ := relaxed_parts h
  exact relaxed_of_parts (headNotResults_sanitize _ h1) (chainPairs_sanitize _ h2)

lemma any_isToolResult_filter (l : List Block) :
    ((l.filter fun b => !isImage b).any isToolResult) = l.any isToolResult := by
  rw [List.any_filter]
  congr 1
  funext b
  cases b <;> rfl

lemma useIds_filter (l : List Block) :
    useIdsOfBlocks (l.filter fun b => !isImage b) = useIdsOfBlocks l := by
  induction l with
  | nil => rfl
  | cons b t ih =>
    cases b <;>
      simp [useIdsOfBlocks, List.filter_cons, isImage, List.filterMap_cons] <;>
      simpa [useIdsOfBlocks] using ih

lemma resultIds_filter (l : List Block) :
    resultIdsOfBlocks (l.filter fun b => !isImage b) = resultIdsOfBlocks l := by
  induction l with
  | nil => rfl
  | cons b t ih =>
    cases b <;>
      simp [resultIdsOfBlocks, List.filter_cons, isImage, List.filterMap_cons] <;>
      simpa [resultIdsOfBlocks] using ih

lemma any_isToolResult_blocksView (c : Content) :
    (blocksView c).any isToolResult = (blocksArr c).any isToolResult := by
  cases c <;> simp [blocksView, blocksArr, isToolResult]

lemma useIds_blocksView (c : Content) :
    useIdsOfBlocks (blocksView c) = useIdsOfBlocks (blocksArr c) := by
  cases c <;> simp [blocksView, blocksArr, useIdsOfBlocks, List.filterMap_cons]

lemma resultIds_blocksView (c : Content) :
    resultIdsOfBlocks (blocksView c) = resultIdsOfBlocks (blocksArr c) := by
  cases c <;> simp [blocksView, blocksArr, resultIdsOfBlocks, List.filterMap_cons]

lemma isToolResultsMsg_strip (m : Msg) (hb : isImageBearing m = true) :
    isToolResultsMsg (stripImages m) = isToolResultsMsg m := by
  simp only [isToolResultsMsg, stripImages_role]
  rw [← any_isToolResult_blocksView, ← any_isToolResult_blocksView m.content,
    stripImages_blocksView m hb, any_isToolResult_filter]

lemma toolUseIds_strip (m : Msg) (hb : isImageBearing m = true) :
    toolUseIds (stripImages m) = toolUseIds m := by
  simp only [toolUseIds]
  rw [← useIds_blocksView, ← useIds_blocksView m.content,
    stripImages_blocksView m hb, useIds_filter]

lemma toolResultIds_strip (m : Msg) (hb : isImageBearing m = true) :
    toolResultIds (stripImages m) = toolResultIds m := by
  simp only [toolResultIds]
  rw [← resultIds_blocksView, ← resultIds_blocksView m.content,
    stripImages_blocksView m hb, resultIds_filter]

lemma isCheckPromptMsg_strip (m : Msg) :
    isCheckPromptMsg (stripImages m) = isCheckPromptMsg m := by
  simp only [isCheckPromptMsg, stripImages_role, stripImages_msgTexts]

lemma relaxedPairOK_strip_left (a b : Msg) (hb : isImageBearing a = true) :
    relaxedPairOK (stripImages a) b = relaxedPairOK a b := by
  simp only [relaxedPairOK, matchedToolPair, stripImages_role,
    toolUseIds_strip a hb]

lemma relaxedPairOK_strip_right (a b : Msg) (hb : isImageBearing b = true) :
    relaxedPairOK a (stripImages b) = relaxedPairOK a b := by
  simp only [relaxedPairOK, matchedToolPair, stripImages_role,
    isCheckPromptMsg_strip, isToolResultsMsg_strip b hb, toolResultIds_strip b hb]

lemma stripFirstImages_nil (n : Nat) : stripFirstImages n [] = [] := by
  cases n <;> rfl

lemma stripFirstImages_cons_shape (n : Nat) (m : Msg) (rest : List Msg) :
    ∃ n' h, stripFirstImages n (m :: rest) = h :: stripFirstImages n' rest ∧
      (h = m ∨ (isImageBearing m = true ∧ h = stripImages m)) := by
  cases n with
  | zero => exact ⟨0, m, by simp [stripFirstImages], Or.inl rfl⟩
  | succ n' =>
    by_cases hb : isImageBearing m
    · exact ⟨n', stripImages m, by simp [stripFirstImages, hb], Or.inr ⟨hb, rfl⟩⟩
    · exact ⟨n' + 1, m, by simp [stripFirstImages, hb], Or.inl rfl⟩

lemma chainPairs_strip : ∀ (l : List Msg) (n : Nat),
    chainPairs relaxedPairOK l = true →
    chainPairs relaxedPairOK (stripFirstImages n l) = true := by
  intro l
  induction l with
  | nil => intro n _; rw [stripFirstImages_nil]; rfl
  | cons m rest ih =>
    intro n h
    obtain ⟨n', hm, heq, hshape⟩ := stripFirstImages_cons_shape n m rest
    rw [chainPairs_cons_iff] at h
    rw [heq, chainPairs_cons_iff]
    refine ⟨?_, ih n' h.2⟩
    intro b' hb'
    cases rest with
    | nil => rw [stripFirstImages_nil] at hb'; simp at hb'
    | cons m2 rest2 =>
      obtain ⟨n2, hm2, heq2, hshape2⟩ := stripFirstImages_cons_shape n' m2 rest2
      rw [heq2] at hb'
      simp only [List.head?_cons, Option.some.injEq] at hb'
      subst hb'
      have hp : relaxedPairOK m m2 = true := h.1 m2 rfl
      rcases hshape with h1 | ⟨hb1, h1⟩ <;> rcases hshape2 with h2 | ⟨hb2, h2⟩ <;>
        subst h1 <;> subst h2
      · exact hp
      · rw [relaxedPairOK_strip_right _ _ hb2]; exact hp
      · rw [relaxedPairOK_strip_left _ _ hb1]; exact hp
      · rw [relaxedPairOK_strip_left _ _ hb1, relaxedPairOK_strip_right _ _ hb2]
        exact hp

lemma headNotResults_strip (l : List Msg) (n : Nat)
    (h : headNotResults l = true) :
    headNotResults (stripFirstImages n l) = true := by
  cases l with
  | nil => rw [stripFirstImages_nil]; rfl
  | cons m rest =>
    obtain ⟨n', hm, heq, hshape⟩ := stripFirstImages_cons_shape n m rest
    rw [heq]
    rcases hshape with h1 | ⟨hb1, h1⟩ <;> subst h1
    · exact h
    · simpa [headNotResults, isToolResultsMsg_strip m hb1] using h

lemma relaxed_prune {conv : List Msg} (h : relaxedAlternationOK conv = true) :
    relaxedAlternationOK (pruneOldImages conv) = true := by
  unfold pruneOldImages
  split_ifs
  · exact h
  · obtain ⟨h1, h2⟩ := relaxed_parts h
    exact relaxed_of_parts (headNotResults_strip _ _ h1) (chainPairs_strip _ _ h2)

lemma relaxed_entry {conv : List Msg} (h : relaxedAlternationOK conv = true) :
    relaxedAlternationOK (pruneOldImages (sanitizeConversation conv)) = true :=
  relaxed_prune (relaxed_sanitize h)

lemma useIdsOfBlocks_toolInvocations (l : List Block) :
    useIdsOfBlocks l = (toolInvocationsOf l).map ToolInvocation.id := by
  induction l with
  | nil => rfl
  | cons b t ih =>
    cases b <;> simp [useIdsOfBlocks, toolInvocationsOf, List.filterMap_cons] <;>
      simpa [useIdsOfBlocks, toolInvocationsOf] using ih

lemma resultIdsOfBlocks_append (x y : List Block) :
    resultIdsOfBlocks (x ++ y) = resultIdsOfBlocks x ++ resultIdsOfBlocks y := by
  simp [resultIdsOfBlocks, List.filterMap_append]

lemma checkBatchOK_of {conv committed : List Msg}
    (h1 : relaxedAlternationOK conv = true)
    (h2 : chainPairs relaxedPairOK committed = true)
    (h3 : ∀ h, committed.head? = some h →
      isCheckPromptMsg h = true ∧ isToolResultsMsg h = false) :
    checkBatchOK conv committed := by
  refine ⟨?_, h3⟩
  obtain ⟨hh, hc⟩ := relaxed_parts h1
  apply relaxed_of_parts
  · cases conv with
    | nil =>
      cases committed with
      | nil => rfl
      | cons h t => simpa [headNotResults] using (h3 h rfl).2
    | cons m t => simpa [headNotResults, List.cons_append] using hh
  · rw [chainPairs_append_iff]
    exact ⟨hc, h2, fun a b ha hb =>
      relaxedPairOK_goodHead a b (h3 b hb).1 (h3 b hb).2⟩

lemma checkBatchOK_parts {conv committed : List Msg}
    (h : checkBatchOK conv committed) :
    chainPairs relaxedPairOK committed = true :=
  ((chainPairs_append_iff relaxedPairOK conv committed).mp
    (relaxed_parts h.1).2).2.1

lemma checkBatchOK_reconv {conv conv' committed : List Msg}
    (h : checkBatchOK conv committed)
    (h1 : relaxedAlternationOK conv' = true) :
    checkBatchOK conv' committed :=
  checkBatchOK_of h1 (checkBatchOK_parts h) h.2

lemma checkBatchOK_snoc {conv committed : List Msg} {b : Msg}
    (h : checkBatchOK conv committed) (hne : committed ≠ [])
    (hseam : ∀ a, (conv ++ committed).getLast? = some a →
      relaxedPairOK a b = true) :
    checkBatchOK conv (committed ++ [b]) := by
  refine ⟨?_, ?_⟩
  · rw [← List.append_assoc]
    refine relaxed_append_one h.1 hseam (Or.inr ?_)
    simp [hne]
  · cases committed with
    | nil => exact absurd rfl hne
    | cons c t =>
      intro hd hhd
      simp only [List.cons_append, List.head?_cons, Option.some.injEq] at hhd
      subst hhd
      exact h.2 c rfl

lemma checkBatchOK_snoc_assistant {conv committed : List Msg} {b : Msg}
    (h : checkBatchOK conv committed) (hne : committed ≠ [])
    (hb : b.role = Role.assistant) :
    checkBatchOK conv (committed ++ [b]) :=
  checkBatchOK_snoc h hne (fun a _ => relaxedPairOK_assistant a b hb)

lemma isPrefixOf_append (l t : List Char) : l.isPrefixOf (l ++ t) = true := by
  induction l with
  | nil => simp [List.isPrefixOf]
  | cons c cs ih => simp [List.isPrefixOf, ih]

lemma strStartsWith_checkPrompt (label suf : String) :
    strStartsWith checkMarker (checkPromptText label suf) = true := by
  simp only [strStartsWith, checkPromptText, String.data_append]
  simp only [List.append_assoc]
  exact isPrefixOf_append _ _

lemma checkPromptTurn_good (f label suf : String) :
    isCheckPromptMsg ⟨Role.user, Content.blocks
        [Block.image f, Block.text (checkPromptText label suf)]⟩ = true ∧
    isToolResultsMsg ⟨Role.user, Content.blocks
        [Block.image f, Block.text (checkPromptText label suf)]⟩ = false := by
  constructor
  · simp [isCheckPromptMsg, msgTexts, contentTexts, isText, textOf,
      strStartsWith_checkPrompt]
  · simp [isToolResultsMsg, blocksArr, isToolResult]

lemma C1Inv_idle {s : LiveSt} (hconv : relaxedAlternationOK s.conv = true)
    (hctl : s.control = Ctl.idle) : C1Inv s := by
  refine ⟨hconv, ?_, ?_, ?_, ?_, ?_⟩
  · intro h; exact absurd hctl h
  · intro c t d heq _; rw [hctl] at heq; cases heq
  · intro r c heq; rw [hctl] at heq; cases heq
  · intro r c t heq; rw [hctl] at heq; cases heq
  · intro r c cur t d heq; rw [hctl] at heq; cases heq

lemma C1Inv_awaitClaude {s : LiveSt} {b : Bool}
    (hconv : relaxedAlternationOK s.conv = true)
    (hctl : s.control = Ctl.mainAwaitClaude b)
    (hp : s.isProcessing = true) : C1Inv s := by
  refine ⟨hconv, fun _ => hp, ?_, ?_, ?_, ?_⟩
  · intro c t d heq _; rw [hctl] at heq; cases heq
  · intro r c heq; rw [hctl] at heq; cases heq
  · intro r c t heq; rw [hctl] at heq; cases heq
  · intro r c cur t d heq; rw [hctl] at heq; cases heq

lemma C1Inv_awaitTTS {s : LiveSt} {b : Bool} {content : List Block}
    (hconv : relaxedAlternationOK s.conv = true)
    (hctl : s.control = Ctl.mainAwaitTTS b content)
    (hp : s.isProcessing = true) : C1Inv s := by
  refine ⟨hconv, fun _ => hp, ?_, ?_, ?_, ?_⟩
  · intro c t d heq _; rw [hctl] at heq; cases heq
  · intro r c heq; rw [hctl] at heq; cases heq
  · intro r c t heq; rw [hctl] at heq; cases heq
  · intro r c cur t d heq; rw [hctl] at heq; cases heq

lemma cycleEntry_inv (isCont : Bool) (s : LiveSt) (hp : s.isProcessing = false)
    (hc : relaxedAlternationOK s.conv = true) :
    C1Inv (cycleEntry isCont s).1 ∧
    ∀ ms ∈ requestsOf (cycleEntry isCont s).2,
      relaxedAlternationOK ms = true := by
  simp only [cycleEntry, hp, Bool.false_eq_true, if_false]
  constructor
  · exact C1Inv_awaitClaude (relaxed_entry hc) rfl rfl
  · intro ms hms
    simp only [requestsOf, List.filterMap_cons, List.filterMap_nil] at hms
    simp only [List.mem_cons, List.not_mem_nil, or_false] at hms
    subst hms
    exact relaxed_entry hc

lemma finishCycle_inv (s : LiveSt) (hc : relaxedAlternationOK s.conv = true) :
    C1Inv (finishCycle s).1 ∧
    ∀ ms ∈ requestsOf (finishCycle s).2, relaxedAlternationOK ms = true := by
  simp only [finishCycle]
  by_cases hpend : s.hasPendingUserMessage = true
  · simp only [hpend, if_true]
    have h := cycleEntry_inv false
      { s with isProcessing := false, control := Ctl.idle,
               hasPendingUserMessage := false } rfl hc
    simpa using h
  · simp only [hpend, if_false]
    refine ⟨C1Inv_idle hc rfl, ?_⟩
    intro ms hms
    simp [requestsOf] at hms

lemma checkFinally_inv (s : LiveSt) (hc : relaxedAlternationOK s.conv = true) :
    C1Inv (checkFinally s).1 ∧
    ∀ ms ∈ requestsOf (checkFinally s).2, relaxedAlternationOK ms = true := by
  simp only [checkFinally]
  by_cases hpend : s.hasPendingUserMessage = true
  · simp only [hpend, if_true]
    have h := cycleEntry_inv false
      { s with isRecurringCheckRunning := false,
               recurringCheckCancelled := false, isProcessing := false,
               control := Ctl.idle, hasPendingUserMessage := false } rfl hc
    simpa using h
  · simp only [hpend, if_false]
    refine ⟨C1Inv_idle hc rfl, ?_⟩
    intro ms hms
    simp [requestsOf] at hms

lemma requestsOf_append (a b : List Out) :
    requestsOf (a ++ b) = requestsOf a ++ requestsOf b := by
  simp [requestsOf, List.filterMap_append]

lemma commit_conv_relaxed {conv : List Msg} (frame : Option String)
    (text : String) (h : relaxedAlternationOK conv = true) :
    relaxedAlternationOK
      ((if (conv.getLast?).map Msg.role = some Role.user then
          conv ++ [⟨Role.assistant, Content.str interruptedPlaceholder⟩]
        else conv) ++ [⟨Role.user, buildUserContent frame text⟩]) = true := by
  have hbu : isToolResultsMsg ⟨Role.user, buildUserContent frame text⟩ = false := by
    cases frame <;>
      simp [isToolResultsMsg, buildUserContent, blocksArr, isToolResult]
  split_ifs with hlast
  · have h1 : relaxedAlternationOK
        (conv ++ [⟨Role.assistant, Content.str interruptedPlaceholder⟩]) = true :=
      relaxed_snoc_assistant h rfl
    refine relaxed_append_one h1 ?_ (Or.inl hbu)
    intro a ha
    rw [List.getLast?_concat] at ha
    cases ha
    exact relaxedPairOK_nonuser_pred _ _ (by simp) hbu
  · refine relaxed_append_one h ?_ (Or.inl hbu)
    intro a ha
    refine relaxedPairOK_nonuser_pred _ _ ?_ hbu
    intro hr
    exact hlast (by rw [ha]; simp [hr])

/-- One step of the machine preserves `C1Inv`, and every generation request
it emits satisfies the relaxed invariant. -/
lemma stepM_inv (s : LiveSt) (e : Ev) (h : C1Inv s) :
    C1Inv (stepM s e).1 ∧
    ∀ ms ∈ requestsOf (stepM s e).2, relaxedAlternationOK ms = true := by
  obtain ⟨hconv, hbusy, hmt, hcc, hct, hctool⟩ := h
  cases e with
  | frame d =>
    exact ⟨⟨hconv, hbusy, hmt, hcc, hct, hctool⟩, by simp [stepM, requestsOf]⟩
  | playbackEnded =>
    exact ⟨⟨hconv, hbusy, hmt, hcc, hct, hctool⟩, by simp [stepM, requestsOf]⟩
  | audioChunk b =>
    simp only [stepM, onTTSAudioChunk]
    split_ifs <;>
      exact ⟨⟨hconv, hbusy, hmt, hcc, hct, hctool⟩, by simp [requestsOf]⟩
  | interimTranscript t =>
    simp only [stepM, onPartialTranscript, handleInterruption]
    split_ifs with h1 h2
    · exact ⟨⟨hconv, hbusy, hmt, hcc, hct, hctool⟩, by simp [requestsOf]⟩
    · refine ⟨⟨hconv, hbusy, ?_, hcc, hct, hctool⟩, by simp [requestsOf]⟩
      intro c t d heq hint
      simp at hint
    · exact ⟨⟨hconv, hbusy, hmt, hcc, hct, hctool⟩, by simp [requestsOf]⟩
  | commitTranscript t =>
    by_cases ht : strTrim t = ""
    · simp only [stepM, onCommittedTranscript, ht, if_pos rfl]
      exact ⟨⟨hconv, hbusy, hmt, hcc, hct, hctool⟩, by simp [requestsOf]⟩
    · simp only [stepM, onCommittedTranscript, if_neg ht, handleInterruption]
      have hc1 : relaxedAlternationOK
          ((if (s.conv.getLast?).map Msg.role = some Role.user then
              s.conv ++ [⟨Role.assistant, Content.str interruptedPlaceholder⟩]
            else s.conv) ++
            [⟨Role.user, buildUserContent s.latestFrame t⟩]) = true :=
        commit_conv_relaxed s.latestFrame t hconv
      by_cases hproc : s.isProcessing = true
      · simp only [hproc, if_true]
        refine ⟨⟨hc1, fun _ => rfl, ?_, ?_, ?_, ?_⟩, by simp [requestsOf]⟩
        · intro c t' d heq hint
          simp at hint
        · intro r c heq
          obtain ⟨hbatch, hlast⟩ := hcc r c heq
          exact ⟨checkBatchOK_reconv hbatch hc1, hlast⟩
        · intro r c tu heq
          obtain ⟨hbatch, hshape⟩ := hct r c tu heq
          exact ⟨checkBatchOK_reconv hbatch hc1, hshape⟩
        · intro r c cur t' d heq
          obtain ⟨hbatch, hshape⟩ := hctool r c cur t' d heq
          exact ⟨checkBatchOK_reconv hbatch hc1, hshape⟩
      · have hpf : s.isProcessing = false := by simpa using hproc
        simp only [hpf, Bool.false_eq_true, if_false]
        rcases hce : cycleEntry false
          { s with
            conv := ((if (s.conv.getLast?).map Msg.role = some Role.user then
                s.conv ++ [⟨Role.assistant, Content.str interruptedPlaceholder⟩]
              else s.conv) ++ [⟨Role.user, buildUserContent s.latestFrame t⟩]),
            isProcessing := false, interrupted := true,
            recurringCheckCancelled := true,
            isAgentCurrentlySpeaking := false } with ⟨s2, o2⟩
        have h2 := cycleEntry_inv false
          { s with
            conv := ((if (s.conv.getLast?).map Msg.role = some Role.user then
                s.conv ++ [⟨Role.assistant, Content.str interruptedPlaceholder⟩]
              else s.conv) ++ [⟨Role.user, buildUserContent s.latestFrame t⟩]),
            isProcessing := false, interrupted := true,
            recurringCheckCancelled := true,
            isAgentCurrentlySpeaking := false } rfl hc1
        rw [hce] at h2
        dsimp only at h2 ⊢
        refine ⟨h2.1, ?_⟩
        intro ms hms
        rw [requestsOf_append] at hms
        rcases List.mem_append.mp hms with hm | hm
        · simp [requestsOf] at hm
        · exact h2.2 ms hm
  | tick suf =>
    rcases hf : s.latestFrame with - | f <;> simp only [stepM, onTick, hf]
    · split_ifs <;>
        exact ⟨⟨hconv, hbusy, hmt, hcc, hct, hctool⟩, by simp [requestsOf]⟩
    · split_ifs with h1 h2 h3
      · exact ⟨⟨hconv, hbusy, hmt, hcc, hct, hctool⟩, by simp [requestsOf]⟩
      · exact ⟨⟨hconv, hbusy, hmt, hcc, hct, hctool⟩, by simp [requestsOf]⟩
      · exact ⟨⟨hconv, hbusy, hmt, hcc, hct, hctool⟩, by simp [requestsOf]⟩
      · have hcv : relaxedAlternationOK
            (pruneOldImages (sanitizeConversation s.conv)) = true :=
          relaxed_entry hconv
        have hgood := checkPromptTurn_good f s.screenLabel suf
        have hbatch : checkBatchOK (pruneOldImages (sanitizeConversation s.conv))
            [⟨Role.user, Content.blocks
              [Block.image f, Block.text (checkPromptText s.screenLabel suf)]⟩] := by
          refine checkBatchOK_of hcv (by simp [chainPairs]) ?_
          intro hd hhd
          simp only [List.head?_cons, Option.some.injEq] at hhd
          subst hhd
          exact hgood
        refine ⟨⟨hcv, fun _ => rfl, ?_, ?_, ?_, ?_⟩, ?_⟩
        · intro c t d heq _; cases heq
        · intro r c heq
          cases heq
          exact ⟨hbatch, by simp [lastRole]⟩
        · intro r c tu heq; cases heq
        · intro r c cur t d heq; cases heq
        · intro ms hms
          simp only [requestsOf, List.filterMap_cons, List.filterMap_nil] at hms
          simp only [List.mem_cons, List.not_mem_nil, or_false] at hms
          subst hms
          exact hbatch.1
  | claudeDone content =>
    cases hctl : s.control with
    | mainAwaitClaude isCont =>
      simp only [stepM, hctl, mainClaudeDone]
      split_ifs with hint
      · exact finishCycle_inv s hconv
      · exact ⟨C1Inv_awaitTTS hconv rfl (hbusy (by rw [hctl]; simp)),
          by simp [requestsOf]⟩
    | checkAwaitClaude remaining committed =>
      simp only [stepM, hctl, checkClaudeDone]
      obtain ⟨hbatch, hlast⟩ := hcc remaining committed hctl
      have hproc : s.isProcessing = true := hbusy (by rw [hctl]; simp)
      have hcne : committed ≠ [] := by
        intro hnil
        rw [hnil] at hlast
        simp [lastRole] at hlast
      split_ifs with hcanc hng htext
      · exact checkFinally_inv s hconv
      · exact checkFinally_inv s hconv
      · have hbatch' : checkBatchOK s.conv
            (committed ++ [⟨Role.assistant, Content.blocks content⟩]) :=
          checkBatchOK_snoc_assistant hbatch hcne rfl
        refine ⟨⟨hconv, fun _ => hproc, ?_, ?_, ?_, ?_⟩, by simp [requestsOf]⟩
        · intro c t d heq _; cases heq
        · intro r c heq; cases heq
        · intro r c tu heq
          cases heq
          refine ⟨hbatch', committed, ⟨Role.assistant, Content.blocks content⟩,
            rfl, rfl, ?_⟩
          simp [toolUseIds, blocksArr, useIdsOfBlocks_toolInvocations]
        · intro r c cur t d heq; cases heq
      · have hbatch' : checkBatchOK s.conv
            (committed ++ [⟨Role.assistant, Content.blocks content⟩]) :=
          checkBatchOK_snoc_assistant hbatch hcne rfl
        rcases htu : toolInvocationsOf content with - | ⟨t1, trest⟩ <;>
          simp only [htu, checkToolsPhase, checkCommit]
        · rw [if_neg hcanc]
          have h2 := checkFinally_inv
            { s with conv := s.conv ++
                (committed ++ [⟨Role.assistant, Content.blocks content⟩]) }
            (by simpa using hbatch'.1)
          simpa using h2
        · rw [if_neg hcanc]
          refine ⟨⟨hconv, fun _ => hproc, ?_, ?_, ?_, ?_⟩, by simp [requestsOf]⟩
          · intro c t d heq _; cases heq
          · intro r c heq; cases heq
          · intro r c tu heq; cases heq
          · intro r c cur t d heq
            cases heq
            refine ⟨hbatch', committed, ⟨Role.assistant, Content.blocks content⟩,
              rfl, rfl, ?_⟩
            simp [toolUseIds, blocksArr, useIdsOfBlocks_toolInvocations, htu,
              resultIdsOfBlocks]
    | _ =>
      simp only [stepM, hctl]
      exact ⟨⟨hconv, hbusy, hmt, hcc, hct, hctool⟩, by simp [requestsOf]⟩
  | claudeFail =>
    cases hctl : s.control with
    | mainAwaitClaude isCont =>
      simp only [stepM, hctl]
      exact finishCycle_inv s hconv
    | checkAwaitClaude remaining committed =>
      simp only [stepM, hctl]
      exact checkFinally_inv s hconv
    | _ =>
      simp only [stepM, hctl]
      exact ⟨⟨hconv, hbusy, hmt, hcc, hct, hctool⟩, by simp [requestsOf]⟩
  | ttsAck =>
    cases hctl : s.control with
    | mainAwaitTTS isCont content =>
      simp only [stepM, hctl, mainTtsDone]
      have hconv' : relaxedAlternationOK
          (s.conv ++ [⟨Role.assistant, Content.blocks content⟩]) = true :=
        relaxed_snoc_assistant hconv rfl
      have hproc : s.isProcessing = true := hbusy (by rw [hctl]; simp)
      rcases htu : toolInvocationsOf content with - | ⟨t1, trest⟩ <;>
        simp only [htu]
      · have h2 := finishCycle_inv
          { s with conv := s.conv ++ [⟨Role.assistant, Content.blocks content⟩] }
          hconv'
        simpa using h2
      · split_ifs with hint
        · have h2 := finishCycle_inv
            { s with conv := s.conv ++ [⟨Role.assistant, Content.blocks content⟩] }
            hconv'
          simpa using h2
        · refine ⟨⟨hconv', fun _ => hproc, ?_, ?_, ?_, ?_⟩, by simp [requestsOf]⟩
          · intro c t d heq hint2
            cases heq
            refine ⟨s.conv, ⟨Role.assistant, Content.blocks content⟩, rfl, rfl, ?_⟩
            simp [toolUseIds, blocksArr, useIdsOfBlocks_toolInvocations, htu,
              resultIdsOfBlocks]
          · intro r c heq; cases heq
          · intro r c tu heq; cases heq
          · intro r c cur t d heq; cases heq
    | checkAwaitTTS remaining committed toolUses =>
      simp only [stepM, hctl, checkTtsDone]
      obtain ⟨hbatch, hshape⟩ := hct remaining committed toolUses hctl
      have hproc : s.isProcessing = true := hbusy (by rw [hctl]; simp)
      split_ifs with hcanc
      · exact checkFinally_inv s hconv
      · rcases toolUses with - | ⟨t1, trest⟩ <;>
          simp only [checkToolsPhase, checkCommit]
        · rw [if_neg hcanc]
          have h2 := checkFinally_inv { s with conv := s.conv ++ committed }
            hbatch.1
          simpa using h2
        · rw [if_neg hcanc]
          obtain ⟨front, a, hdecomp, harole, hids⟩ := hshape
          refine ⟨⟨hconv, fun _ => hproc, ?_, ?_, ?_, ?_⟩, by simp [requestsOf]⟩
          · intro c t d heq _; cases heq
          · intro r c heq; cases heq
          · intro r c tu heq; cases heq
          · intro r c cur t d heq
            cases heq
            refine ⟨hbatch, front, a, hdecomp, harole, ?_⟩
            rw [hids]
            simp [resultIdsOfBlocks]
    | _ =>
      simp only [stepM, hctl]
      exact ⟨⟨hconv, hbusy, hmt, hcc, hct, hctool⟩, by simp [requestsOf]⟩
  | ttsFail =>
    cases hctl : s.control with
    | mainAwaitTTS isCont content =>
      simp only [stepM, hctl]
      exact finishCycle_inv s hconv
    | checkAwaitTTS remaining committed toolUses =>
      simp only [stepM, hctl]
      exact checkFinally_inv s hconv
    | _ =>
      simp only [stepM, hctl]
      exact ⟨⟨hconv, hbusy, hmt, hcc, hct, hctool⟩, by simp [requestsOf]⟩
  | toolDone r =>
    cases hctl : s.control with
    | mainAwaitTool current todo done =>
      simp only [stepM, hctl, mainToolDone]
      have hproc : s.isProcessing = true := hbusy (by rw [hctl]; simp)
      rcases todo with - | ⟨t1, trest⟩ <;> dsimp only
      · split_ifs with hint
        · exact finishCycle_inv s hconv
        · obtain ⟨front, a, hdecomp, harole, hids⟩ :=
            hmt current [] done hctl (by simpa using hint)
          have hres : relaxedAlternationOK (s.conv ++
              [⟨Role.user, Content.blocks
                (done ++ [Block.toolResult current.id r])⟩]) = true := by
            refine relaxed_append_one hconv ?_ (Or.inr (by rw [hdecomp]; simp))
            intro x hx
            rw [hdecomp, List.getLast?_concat] at hx
            cases hx
            apply relaxedPairOK_matched
            simp only [matchedToolPair, toolResultIds, blocksArr,
              resultIdsOfBlocks_append, hids, harole]
            simp [resultIdsOfBlocks]
          have h2 := cycleEntry_inv true
            { s with
              conv := (s.conv ++ [⟨Role.user, Content.blocks
                  (done ++ [Block.toolResult current.id r])⟩]),
              isProcessing := false } rfl hres
          simpa using h2
      · split_ifs with hint
        · exact finishCycle_inv s hconv
        · obtain ⟨front, a, hdecomp, harole, hids⟩ :=
            hmt current (t1 :: trest) done hctl (by simpa using hint)
          refine ⟨⟨hconv, fun _ => hproc, ?_, ?_, ?_, ?_⟩, by simp [requestsOf]⟩
          · intro c t d heq hint2
            cases heq
            refine ⟨front, a, hdecomp, harole, ?_⟩
            rw [hids]
            simp [resultIdsOfBlocks_append, resultIdsOfBlocks]
          · intro r' c heq; cases heq
          · intro r' c tu heq; cases heq
          · intro r' c cur t d heq; cases heq
    | checkAwaitTool remaining committed current todo done =>
      simp only [stepM, hctl, checkToolDone]
      obtain ⟨hbatch, front, a, hdecomp, harole, hids⟩ :=
        hctool remaining committed current todo done hctl
      have hproc : s.isProcessing = true := hbusy (by rw [hctl]; simp)
      have hcne : committed ≠ [] := by rw [hdecomp]; simp
      rcases todo with - | ⟨t1, trest⟩ <;> dsimp only
      · have hbatch' : checkBatchOK s.conv (committed ++
            [⟨Role.user, Content.blocks
              (done ++ [Block.toolResult current.id r])⟩]) := by
          refine checkBatchOK_snoc hbatch hcne ?_
          intro x hx
          rw [hdecomp, ← List.append_assoc, List.getLast?_concat] at hx
          cases hx
          apply relaxedPairOK_matched
          simp only [matchedToolPair, toolResultIds, blocksArr,
            resultIdsOfBlocks_append, hids, harole]
          simp [resultIdsOfBlocks]
        rcases remaining with - | r' <;> dsimp only
        · simp only [checkCommit]
          split_ifs with hcanc
          · exact checkFinally_inv s hconv
          · have h2 := checkFinally_inv
              { s with conv := s.conv ++ (committed ++
                  [⟨Role.user, Content.blocks
                    (done ++ [Block.toolResult current.id r])⟩]) }
              hbatch'.1
            simpa using h2
        · split_ifs with hcanc
          · exact checkFinally_inv s hconv
          · refine ⟨⟨hconv, fun _ => hproc, ?_, ?_, ?_, ?_⟩, ?_⟩
            · intro c t d heq _; cases heq
            · intro rr cc heq
              cases heq
              refine ⟨hbatch', ?_⟩
              simp [lastRole, List.getLast?_concat]
            · intro rr cc tu heq; cases heq
            · intro rr cc cur t d heq; cases heq
            · intro ms hms
              simp only [requestsOf, List.filterMap_cons, List.filterMap_nil]
                at hms
              simp only [List.mem_cons, List.not_mem_nil, or_false] at hms
              subst hms
              exact hbatch'.1
      · split_ifs with hcanc
        · exact checkFinally_inv s hconv
        · refine ⟨⟨hconv, fun _ => hproc, ?_, ?_, ?_, ?_⟩, by simp [requestsOf]⟩
          · intro c t d heq _; cases heq
          · intro rr cc heq; cases heq
          · intro rr cc tu heq; cases heq
          · intro rr cc cur t d heq
            cases heq
            refine ⟨hbatch, front, a, hdecomp, harole, ?_⟩
            rw [hids]
            simp [resultIdsOfBlocks_append, resultIdsOfBlocks]
    | _ =>
      simp only [stepM, hctl]
      exact ⟨⟨hconv, hbusy, hmt, hcc, hct, hctool⟩, by simp [requestsOf]⟩

lemma initState_inv (label : String) :
    C1Inv (initState label).1 ∧
    ∀ ms ∈ requestsOf (initState label).2, relaxedAlternationOK ms = true :=
  cycleEntry_inv false
    { conv := initConv, isProcessing := false, interrupted := false,
      hasPendingUserMessage := false, isRecurringCheckRunning := false,
      recurringCheckCancelled := false, isAgentCurrentlySpeaking := false,
      latestFrame := none, screenLabel := label, control := Ctl.idle }
    rfl (show relaxedAlternationOK initConv = true by decide)

lemma runM_inv (evts : List Ev) :
    ∀ (s : LiveSt), C1Inv s →
    ∀ ms ∈ requestsOf (runM s evts).2, relaxedAlternationOK ms = true := by
  induction evts with
  | nil => intro s _ ms hms; simp [runM, requestsOf] at hms
  | cons e rest ih =>
    intro s h ms hms
    obtain ⟨hinv, hreq⟩ := stepM_inv s e h
    rcases hse : stepM s e with ⟨s1, out1⟩
    rw [hse] at hinv hreq
    simp only [runM, hse] at hms
    rcases hrm : runM s1 rest with ⟨s2, out2⟩
    rw [hrm] at hms
    dsimp only at hms hinv hreq
    rw [requestsOf_append] at hms
    rcases List.mem_append.mp hms with hm | hm
    · exact hreq ms hm
    · have h2 := ih s1 hinv ms
      rw [hrm] at h2
      exact h2 hm

/-- C1 counterexample: the claimed *strict* alternation invariant fails on a
reachable trace.  From session start: the greeting cycle completes; the user
commits "make a chair" (a cycle starts); a partial transcript interrupts it
mid-stream, so no assistant turn is pushed and the history ends in the user's
turn; a frame arrives and the idle check fires.  The check's outbound request
appends its `[RECURRING_SCREEN_CHECK]` prompt turn (role `user`) directly
after the user's own turn — two adjacent user turns, violating strict
role alternation. -/
theorem C1_strict_alternation_cex :
    ((requestsOf (runM (initState c1Label).1 c1CexEvents).2).any
      fun ms => !alternationOK ms) = true := by decide

/-- C1 [corrected]: for every session (any screen label) and every event
sequence, each outbound generation request — the initial one and all emitted
during the run — satisfies the *relaxed* alternation invariant the code
actually maintains: no turn carries tool results without immediately
following the assistant turn whose tool-use ids it matches in order, and no
two user turns are adjacent except a recurring-check prompt turn after a user
turn; role alternation between the remaining turns is *not* guaranteed (the
check prompt can follow a user turn, and a stale cycle's unconditional
assistant push can abut the next response). -/
theorem C1_requests_relaxed_alternation (label : String) (evts : List Ev) :
    (∀ ms ∈ requestsOf (initState label).2, relaxedAlternationOK ms = true) ∧
    ∀ ms ∈ requestsOf (runM (initState label).1 evts).2,
      relaxedAlternationOK ms = true :=
  ⟨(initState_inv label).2, runM_inv evts _ (initState_inv label).1⟩

set_option maxRecDepth 8192 in
theorem C1_requests_relaxed_alternation_witness :
    relaxedAlternationOK
      ((requestsOf (runM (initState c1Label).1 c1CexEvents).2).getD 1 [])
      = true :=
  (C1_requests_relaxed_alternation c1Label c1CexEvents).2 _ (by decide)

end ClaudeTutors
